import Mathlib

/-!
Verification of the Criteo MAPI Node.js client's authenticated-request
pipeline (src/lib/mapi.js and the 0.8.1 variant in src/unnamed/part_000).

The development shallowly embeds, in executable Lean definitions:
  * the JavaScript string helpers the pipeline relies on
    (`String.prototype.trim`, `Number.prototype.toString`, substring search
    used by `indexOf('401')` and the status regex `20[0-9]`);
  * a model of JSON documents together with models of the host-language
    builtins `JSON.stringify` / `JSON.parse` (integer numerals, the common
    escape sequences; fractional/exponent numerals and \u escapes are not
    modelled, the client never produces them);
  * the response processors `process`, `parseJSON`, `parseResponse`,
    `saveToFile`, `processAuth`;
  * the promise pipeline `mapiRequest` / `executeRequest` /
    `decideWhetherToRequeue` / `resolveRequest` / `rejectRequest` /
    `checkAuthentication` as a fuel-indexed state-passing interpreter over
    an explicit transport oracle.
-/

namespace Mapi

/-! ## JavaScript character/string helpers -/

/-- Whitespace as recognised by `String.prototype.trim` (the characters the
client's bodies can actually contain). -/
def isWsChar (c : Char) : Bool :=
  c = ' ' || c = '\t' || c = '\n' || c = '\r' || c = '\x0c' || c = '\x0b'

/-- Model of `String.prototype.trim` on a character list: drop whitespace
from both ends. -/
def trimChars (l : List Char) : List Char :=
  ((l.dropWhile isWsChar).reverse.dropWhile isWsChar).reverse

/-- Decimal digit test, as in the regex character class `[0-9]`. -/
def isDigitC (c : Char) : Bool := '0' ≤ c && c ≤ '9'

/-- The character `{` (written via its code point to keep string scanning
simple). -/
def lbrace : Char := Char.ofNat 123

/-- The character `}`. -/
def rbrace : Char := Char.ofNat 125

/-- Digit character for a value `< 10`, as produced by
`Number.prototype.toString`. -/
def digitChar (n : Nat) : Char := Char.ofNat (48 + n)

/-- Decimal digits of `n`, most significant first; fuel-indexed so that it
is structural (the wrapper always supplies enough fuel). -/
def digitsAux : Nat → Nat → List Char
  | 0, _ => []
  | fuel + 1, n =>
    if n < 10 then [digitChar n]
    else digitsAux fuel (n / 10) ++ [digitChar (n % 10)]

/-- Model of `Number.prototype.toString` for the natural numbers the client
feeds it (HTTP status codes). -/
def natToChars (n : Nat) : List Char := digitsAux (n + 1) n

/-- `natToChars` packaged as a `String`. -/
def jsNatToString (n : Nat) : String := String.mk (natToChars n)

/-- Scan for the substring matched by the regex `20[0-9]` anywhere in the
character list: this is exactly what `status.toString().match(/20[0-9]/)`
tests in `process` (note: unanchored). -/
def has20x : List Char → Bool
  | c1 :: c2 :: c3 :: rest =>
    (c1 = '2' && c2 = '0' && isDigitC c3) || has20x (c2 :: c3 :: rest)
  | _ => false

/-- Scan for the substring `"401"`, as `err.toString().indexOf('401') > -1`
does in `decideWhetherToRequeue`. -/
def has401 : List Char → Bool
  | c1 :: c2 :: c3 :: rest =>
    (c1 = '4' && c2 = '0' && c3 = '1') || has401 (c2 :: c3 :: rest)
  | _ => false

/-- Status classification used by `process`:
`status.toString().match(/20[0-9]/) !== null`. -/
def statusSuccess (status : Nat) : Bool := has20x (natToChars status)

/-- 401-classification used by `decideWhetherToRequeue`: the textual
representation of the failure contains `"401"`. -/
def contains401 (e : String) : Bool := has401 e.data

/-! ## JSON documents

Mutual inductives (rather than a nested `List`) so that all recursions are
structural and reduce inside the kernel. -/

mutual
inductive Json where
  | null : Json
  | bool (b : Bool) : Json
  | num (n : Int) : Json
  | str (s : List Char) : Json
  | arr (xs : JArr) : Json
  | obj (kvs : JObj) : Json

inductive JArr where
  | nil : JArr
  | cons (hd : Json) (tl : JArr) : JArr

inductive JObj where
  | nil : JObj
  | cons (k : List Char) (v : Json) (tl : JObj) : JObj
end

/-- A JavaScript value as the pipeline observes it: either `undefined`
(`none`) or a JSON-representable value. -/
def JsVal : Type := Option Json

/-- Characters `JSON.stringify` escapes (the common cases; `\u` escapes for
other control characters are outside the model). -/
def escChar (c : Char) : List Char :=
  if c = '"' then ['\\', '"']
  else if c = '\\' then ['\\', '\\']
  else if c = '\n' then ['\\', 'n']
  else if c = '\t' then ['\\', 't']
  else if c = '\r' then ['\\', 'r']
  else [c]

/-- Escape a whole string body. -/
def escList : List Char → List Char
  | [] => []
  | c :: rest => escChar c ++ escList rest

/-- Serialization of an integer numeral, as `JSON.stringify` prints the
integral numbers the client round-trips. -/
def serInt (n : Int) : List Char :=
  if n < 0 then '-' :: natToChars (-n).toNat else natToChars n.toNat

/-- The keyword emitted for the JSON `null` value. -/
def litNull : List Char := ['n', 'u', 'l', 'l']

/-- The keyword emitted for the JSON `true` value. -/
def litTrue : List Char := ['t', 'r', 'u', 'e']

/-- The keyword emitted for the JSON `false` value. -/
def litFalse : List Char := ['f', 'a', 'l', 's', 'e']

mutual
/-- Model of `JSON.stringify` on JSON documents (no added whitespace, keys
in order). -/
def serialize : Json → List Char
  | .null => litNull
  | .bool true => litTrue
  | .bool false => litFalse
  | .num n => serInt n
  | .str s => '"' :: escList s ++ ['"']
  | .arr xs => '[' :: serArr xs ++ [']']
  | .obj kvs => lbrace :: serObj kvs ++ [rbrace]

/-- Comma-separated serialization of array elements. -/
def serArr : JArr → List Char
  | .nil => []
  | .cons x .nil => serialize x
  | .cons x (.cons y tl) => serialize x ++ ',' :: serArr (.cons y tl)

/-- Comma-separated serialization of object members. -/
def serObj : JObj → List Char
  | .nil => []
  | .cons k v .nil => '"' :: escList k ++ '"' :: ':' :: serialize v
  | .cons k v (.cons k2 v2 tl) =>
    ('"' :: escList k ++ '"' :: ':' :: serialize v) ++
      ',' :: serObj (.cons k2 v2 tl)
end

/-- `JSON.stringify` at the `String` interface. -/
def jsonStringify (v : Json) : String := String.mk (serialize v)

/-! ## Model of `JSON.parse` -/

/-- Skip insignificant whitespace between tokens. -/
def skipWs (l : List Char) : List Char := l.dropWhile isWsChar

/-- Decode one escape sequence (`\u` escapes are outside the model, the
serializer never produces them). -/
def unescape (c : Char) : Option Char :=
  if c = '"' then some '"'
  else if c = '\\' then some '\\'
  else if c = '/' then some '/'
  else if c = 'n' then some '\n'
  else if c = 't' then some '\t'
  else if c = 'r' then some '\r'
  else if c = 'b' then some '\x08'
  else if c = 'f' then some '\x0c'
  else none

/-- Parse the body of a string literal after its opening quote, returning
the decoded characters and the input after the closing quote. -/
def parseStringBody : List Char → Option (List Char × List Char)
  | [] => none
  | c :: rest =>
    if c = '"' then some ([], rest)
    else if c = '\\' then
      match rest with
      | [] => none
      | e :: rest2 =>
        (unescape e).bind fun u =>
          (parseStringBody rest2).map fun p => (u :: p.1, p.2)
    else (parseStringBody rest).map fun p => (c :: p.1, p.2)

/-- Numeric value of a digit character. -/
def digitVal (c : Char) : Nat := c.toNat - 48

/-- Fold a digit list into a natural number. -/
def digitsToNat (ds : List Char) : Nat :=
  ds.foldl (fun a c => a * 10 + digitVal c) 0

/-- Parse a run of digits (at least one) into a natural number. -/
def parseNatChars (l : List Char) : Option (Nat × List Char) :=
  match l.takeWhile isDigitC with
  | [] => none
  | ds => some (digitsToNat ds, l.dropWhile isDigitC)

/-- Parse an (integer) JSON numeral, with optional leading minus sign. -/
def parseNumber (l : List Char) : Option (Json × List Char) :=
  match l with
  | [] => none
  | c :: r =>
    if c = '-' then (parseNatChars r).map fun p => (.num (-(p.1 : Int)), p.2)
    else (parseNatChars (c :: r)).map fun p => (.num (p.1 : Int), p.2)

mutual
/-- Parse one JSON value.  Fuel-indexed (each value and each element
consumes one unit, so `length + 1` fuel always suffices). -/
def parseValue : Nat → List Char → Option (Json × List Char)
  | 0, _ => none
  | fuel + 1, l =>
    match skipWs l with
    | [] => none
    | c :: rest =>
      if c = 'n' then
        match rest with
        | 'u' :: 'l' :: 'l' :: r => some (.null, r)
        | _ => none
      else if c = 't' then
        match rest with
        | 'r' :: 'u' :: 'e' :: r => some (.bool true, r)
        | _ => none
      else if c = 'f' then
        match rest with
        | 'a' :: 'l' :: 's' :: 'e' :: r => some (.bool false, r)
        | _ => none
      else if c = '"' then
        (parseStringBody rest).map fun p => (.str p.1, p.2)
      else if c = '[' then
        match skipWs rest with
        | [] => none
        | c2 :: r2 =>
          if c2 = ']' then some (.arr .nil, r2)
          else (parseElems fuel (c2 :: r2)).map fun p => (.arr p.1, p.2)
      else if c = lbrace then
        match skipWs rest with
        | [] => none
        | c2 :: r2 =>
          if c2 = rbrace then some (.obj .nil, r2)
          else (parseMembers fuel (c2 :: r2)).map fun p => (.obj p.1, p.2)
      else if c = '-' || isDigitC c then parseNumber (c :: rest)
      else none

/-- Parse a non-empty comma-separated element list up to and including the
closing `]`. -/
def parseElems : Nat → List Char → Option (JArr × List Char)
  | 0, _ => none
  | fuel + 1, l =>
    (parseValue fuel l).bind fun p =>
      match skipWs p.2 with
      | [] => none
      | c :: r =>
        if c = ',' then
          (parseElems fuel r).map fun q => (.cons p.1 q.1, q.2)
        else if c = ']' then some (.cons p.1 .nil, r)
        else none

/-- Parse a non-empty comma-separated member list up to and including the
closing brace. -/
def parseMembers : Nat → List Char → Option (JObj × List Char)
  | 0, _ => none
  | fuel + 1, l =>
    match skipWs l with
    | [] => none
    | c :: r =>
      if c = '"' then
        (parseStringBody r).bind fun pk =>
          match skipWs pk.2 with
          | [] => none
          | c2 :: r2 =>
            if c2 = ':' then
              (parseValue fuel r2).bind fun pv =>
                match skipWs pv.2 with
                | [] => none
                | c3 :: r3 =>
                  if c3 = ',' then
                    (parseMembers fuel r3).map fun q =>
                      (.cons pk.1 pv.1 q.1, q.2)
                  else if c3 = rbrace then some (.cons pk.1 pv.1 .nil, r3)
                  else none
            else none
      else none
end

/-- Model of `JSON.parse` on a character list: parse one value and require
only whitespace to remain. -/
def jsonParseL (l : List Char) : Option Json :=
  match parseValue (l.length + 1) l with
  | some (v, rest) => if skipWs rest = [] then some v else none
  | none => none

/-- `JSON.parse` at the `String` interface. -/
def jsonParse (s : String) : Option Json := jsonParseL s.data

/-! ## The client model

State, descriptors and the promise pipeline of `Criteo_MAPI_Client`
(`mapiRequest` and the functions it chains), embedded as a fuel-indexed
state-passing interpreter.  The HTTP transport (the `API_Client`/`http.js`
layer below `get`/`post`/…) is an external collaborator and is modelled as
an oracle mapping the index of each transport exchange to its result. -/

/-- Result of one transport exchange: a completed HTTP response (any
status), or a transport-level failure carrying the textual representation
of the error. -/
inductive TransportResult where
  | ok (status : Nat) (body : String) : TransportResult
  | fail (msg : String) : TransportResult

/-- How a handler settles its promise: resolved with a value, or rejected
with the textual representation of an error. -/
inductive Settle where
  | success (v : JsVal) : Settle
  | failure (e : String) : Settle

/-- One invocation of a user callback: `callback(null, res)` on success,
`callback(err)` (single argument) on failure. -/
inductive CbCall where
  | success (v : JsVal) : CbCall
  | failure (e : String) : CbCall

/-- Outcome of the promise returned by `mapiRequest`: resolved, rejected,
or never settled. -/
inductive POutcome where
  | resolved (v : JsVal) : POutcome
  | rejected (e : String) : POutcome
  | pending : POutcome

/-- Response-processing mode selected by the endpoint wrapper: `processJSON`,
`processResponse`, `processFile(filepath)` or `processAuth`. -/
inductive Mode where
  | json : Mode
  | text : Mode
  | file (filepath : String) : Mode
  | auth : Mode
deriving DecidableEq

/-- The request descriptor `r` handed to `mapiRequest`: the endpoint data
plus the two lifecycle flags the pipeline mutates (`r.retry`,
`r.callbackExecuted`).  `hasCallback` records whether `r.callback` was
supplied. -/
structure Desc where
  method : String
  path : String
  body : String
  mode : Mode
  hasCallback : Bool
  retry : Bool
  callbackExecuted : Bool

/-- Client/process state threaded through the pipeline: the shared bearer
token (`this.token`, a JavaScript value since `processAuth` can store
`undefined`), the transport oracle with the index of the next exchange, a
log of transport executions (the path of each), filesystem behaviour and a
log of completed file writes, and a log of user-callback invocations. -/
structure St where
  token : JsVal
  oracle : Nat → TransportResult
  calls : Nat
  execLog : List String
  fsOk : Bool
  fileWrites : List (String × String)
  cbLog : List CbCall

/-- Result of running the pipeline: the outcome of the returned promise,
the final descriptor, and the final state. -/
structure PRes where
  out : POutcome
  desc : Desc
  st : St

/-- JavaScript truthiness of the values the pipeline tests. -/
def truthy : JsVal → Bool
  | none => false
  | some .null => false
  | some (.bool b) => b
  | some (.num n) => decide (n ≠ 0)
  | some (.str s) => !s.isEmpty
  | some (.arr _) => true
  | some (.obj _) => true

/-- The authentication endpoint path. -/
def authPath : String := "/oauth2/token"

/-- `checkAuthentication(r)`: the request may proceed without
(re)authenticating iff `(this.token && !r.retry) || r.path === '/oauth2/token'`. -/
def checkAuthentication (token : JsVal) (d : Desc) : Bool :=
  (truthy token && !d.retry) || d.path == authPath

/-- The fresh descriptor `authenticate()` builds for the credential
exchange (no user callback is supplied by the pipeline's internal call). -/
def authDesc : Desc :=
  { method := "post", path := authPath, body := "grant_type=client_credentials"
    mode := .auth, hasCallback := false, retry := false, callbackExecuted := false }

/-- Property read on a parsed JavaScript object: the value bound to `key`
(later duplicate members overwrite earlier ones, as in `JSON.parse`), or
`undefined`. -/
def jlookup : JObj → List Char → JsVal
  | .nil, _ => none
  | .cons k v tl, key =>
    match jlookup tl key with
    | some w => some w
    | none => if k = key then some v else none

/-- The field name `access_token`. -/
def keyAccessToken : List Char :=
  ['a', 'c', 'c', 'e', 's', 's', '_', 't', 'o', 'k', 'e', 'n']

/-- Textual representation of the `Error` rejected by `processAuth`. -/
def authErrorMsg : String :=
  "Error: Error Retrieving Session Token from Authentication Response!"

/-- Textual representation of the `Error` rejected by `process` on a
non-2xx status: it carries the status code and the raw body. -/
def badResponseMsg (status : Nat) (body : String) : String :=
  "Error: Bad Response From API: Status Code " ++ jsNatToString status ++ " | " ++ body

/-- Textual representation of the `Error` rejected by `parseJSON` on a
parse failure (the embedded `SyntaxError` text is abstracted). -/
def jsonErrorMsg : String :=
  "Error: Error Parsing JSON Response: SyntaxError: Unexpected token in JSON"

/-- Textual representation of the `Error` rejected by `saveToFile` on an
I/O failure. -/
def saveErrorMsg : String :=
  "Error: Error Saving Response to File. Error: write failed"

/-- `processAuth(res)`: `JSON.parse` the body, store `response.access_token`
into `this.token` and resolve with it; any exception (malformed JSON, or a
property read on `null`) rejects with the auth error.  A property read on a
non-`null` primitive yields `undefined` without throwing.  Returns the
settle result and the new token. -/
def processAuth (body : String) (token : JsVal) : Settle × JsVal :=
  match jsonParse body with
  | none => (.failure authErrorMsg, token)
  | some .null => (.failure authErrorMsg, token)
  | some (.obj kvs) =>
    let t := jlookup kvs keyAccessToken
    (.success t, t)
  | some _ => (.success none, none)

/-- `parseJSON(body, resolve, reject)` applied to the trimmed body: empty
body resolves `true`; otherwise `JSON.parse`, rejecting on a parse error. -/
def parseJSON (l : List Char) : Settle :=
  if l.isEmpty then .success (some (.bool true))
  else
    match jsonParseL l with
    | some j => .success (some j)
    | none => .failure jsonErrorMsg

/-- `parseResponse(body, resolve, reject)` applied to the trimmed body:
empty body resolves `true`; otherwise the body resolves verbatim. -/
def parseResponse (l : List Char) : Settle :=
  if l.isEmpty then .success (some (.bool true))
  else .success (some (.str l))

/-- `process(res, parser)`: reject when the status string does not match
`/20[0-9]/`, then (unconditionally — there is no `else`) run the parser on
the trimmed body.  A promise keeps its first settlement, so on a bad status
the rejection wins and the parser's own settlement is discarded. -/
def process (status : Nat) (body : String) (parserOut : Settle) : Settle :=
  if statusSuccess status then parserOut
  else .failure (badResponseMsg status body)

/-- Dispatch of `r.handler` on a completed transport response: the
mode-specific parser always runs on the trimmed body (with its side
effects), and `process` combines its settlement with the status check.
`processAuth` is wired directly as the handler and never looks at the
status. -/
def applyHandler (mode : Mode) (status : Nat) (body : String) (st : St) :
    Settle × St :=
  match mode with
  | .auth =>
    let p := processAuth body st.token
    (p.1, { st with token := p.2 })
  | .json => (process status body (parseJSON (trimChars body.data)), st)
  | .text => (process status body (parseResponse (trimChars body.data)), st)
  | .file fp =>
    let written := String.mk (trimChars body.data)
    if st.fsOk then
      (process status body (.success (some (.str ("Results saved to " ++ fp ++ ".").data))),
       { st with fileWrites := st.fileWrites ++ [(fp, written)] })
    else
      (process status body (.failure saveErrorMsg), st)

/-- `executeRequest(r)`: perform one transport exchange (recorded in the
execution log) and apply `r.handler`; a transport-level failure propagates
unchanged (`.catch(err => Promise.reject(err))`). -/
def executeRequest (d : Desc) (st : St) : Settle × St :=
  let tr := st.oracle st.calls
  let st1 := { st with calls := st.calls + 1, execLog := st.execLog ++ [d.path] }
  match tr with
  | .fail msg => (.failure msg, st1)
  | .ok status body => applyHandler d.mode status body st1

/-- `resolveRequest(r, resolve, res)`: fire the callback once (guarded by
`r.callbackExecuted`) and resolve the promise. -/
def resolveRequest (d : Desc) (st : St) (v : JsVal) : PRes :=
  if d.hasCallback && !d.callbackExecuted then
    { out := .resolved v
      desc := { d with callbackExecuted := true }
      st := { st with cbLog := st.cbLog ++ [.success v] } }
  else { out := .resolved v, desc := d, st := st }

/-- `rejectRequest(r, reject, err)`: if a callback is pending it receives
the error and — per the source's `else` — the promise is NOT rejected (it
stays pending); otherwise the promise is rejected. -/
def rejectRequest (d : Desc) (st : St) (e : String) : PRes :=
  if d.hasCallback && !d.callbackExecuted then
    { out := .pending
      desc := { d with callbackExecuted := true }
      st := { st with cbLog := st.cbLog ++ [.failure e] } }
  else { out := .rejected e, desc := d, st := st }

/-- `decideWhetherToRequeue(r, err)` composed with the tail of the
`mapiRequest` chain: a failure whose text contains `"401"` on a
not-yet-retried descriptor sets `r.retry = true` and resolves with a
recursive `mapiRequest(r)` (whose settlement then flows into
`resolveRequest`/`rejectRequest`); any other failure is rejected into
`rejectRequest`. -/
def decideWhetherToRequeue (recur : Desc → St → PRes) (d : Desc) (st : St)
    (e : String) : PRes :=
  if contains401 e && !d.retry then
    let r := recur { d with retry := true } st
    match r.out with
    | .pending => { out := .pending, desc := r.desc, st := r.st }
    | .resolved v => resolveRequest r.desc r.st v
    | .rejected e2 => rejectRequest r.desc r.st e2
  else rejectRequest d st e

/-- `executeRequest` composed with the tail of the chain: success flows to
`resolveRequest`, failure to `decideWhetherToRequeue`. -/
def executePhase (recur : Desc → St → PRes) (d : Desc) (st : St) : PRes :=
  let p := executeRequest d st
  match p.1 with
  | .success v => resolveRequest d p.2 v
  | .failure e => decideWhetherToRequeue recur d p.2 e

/-- One unfolding of `mapiRequest(r)`'s chain
`checkAuthentication → (catch: authenticate) → executeRequest →
(catch: decideWhetherToRequeue) → resolveRequest → (catch: rejectRequest)`.
`authenticate` submits a fresh auth descriptor through the same pipeline;
if its promise rejects, the rejection flows into
`decideWhetherToRequeue` (skipping `executeRequest`). -/
def pipelineStep (recur : Desc → St → PRes) (d : Desc) (st : St) : PRes :=
  if checkAuthentication st.token d then executePhase recur d st
  else
    let a := recur authDesc st
    match a.out with
    | .pending => { out := .pending, desc := d, st := a.st }
    | .resolved _ => executePhase recur d a.st
    | .rejected e => decideWhetherToRequeue recur d a.st e

/-- `mapiRequest(r)`, fuel-indexed.  The fuel only bounds the recursion
depth of the interpreter (exhaustion yields a pending promise); the
retry/bootstrap flags bound the real recursion, so any fuel ≥ 4 computes
the actual behaviour. -/
def mapiRequest : Nat → Desc → St → PRes
  | 0, d, st => { out := .pending, desc := d, st := st }
  | fuel + 1, d, st => pipelineStep (mapiRequest fuel) d st

/-! ## Auxiliary definitions for the proofs -/

mutual
/-- Fuel sufficient for `parseValue` to parse the serialization of `v`. -/
def needV : Json → Nat
  | .null => 1
  | .bool _ => 1
  | .num _ => 1
  | .str _ => 1
  | .arr xs => needA xs + 1
  | .obj kvs => needO kvs + 1

/-- Fuel sufficient for `parseElems` on the serialization of `xs`. -/
def needA : JArr → Nat
  | .nil => 1
  | .cons x tl => max (needV x) (needA tl) + 1

/-- Fuel sufficient for `parseMembers` on the serialization of `kvs`. -/
def needO : JObj → Nat
  | .nil => 1
  | .cons _ v tl => max (needV v) (needO tl) + 1
end

/-- The input following a serialized numeral must not begin with a digit
(in serialized JSON it is empty or starts with a delimiter). -/
def NumDelim (rest : List Char) : Prop :=
  rest = [] ∨ ∃ c t, rest = c :: t ∧ isDigitC c = false

/-- Callback-delivery invariant relating a pipeline result `r` to the
descriptor `d` and callback log `L0` it started from: the callback
fields of the descriptor are preserved, a descriptor without a callback
(or with the callback already delivered) adds no invocation, and a fresh
descriptor with a callback adds at most one invocation, exactly when its
delivered flag flips to true. -/
def CbSpec (d : Desc) (L0 : List CbCall) (r : PRes) : Prop :=
  r.desc.hasCallback = d.hasCallback ∧
  (d.hasCallback = false →
    r.st.cbLog = L0 ∧ r.desc.callbackExecuted = d.callbackExecuted) ∧
  (d.callbackExecuted = true →
    r.st.cbLog = L0 ∧ r.desc.callbackExecuted = true) ∧
  (d.hasCallback = true → d.callbackExecuted = false →
    (r.st.cbLog = L0 ∧ r.desc.callbackExecuted = false) ∨
    (∃ c, r.st.cbLog = L0 ++ [c] ∧ r.desc.callbackExecuted = true))

/-! ### Concrete fixtures used by witnesses and counterexamples -/

/-- A client state with a valid stored token and empty logs over a given
transport oracle. -/
def baseSt (o : Nat → TransportResult) : St :=
  { token := some (.str ['t', 'o', 'k']), oracle := o, calls := 0
    execLog := [], fsOk := true, fileWrites := [], cbLog := [] }

/-- An ordinary JSON-mode descriptor without a user callback. -/
def plainDesc : Desc :=
  { method := "get", path := "/v1/campaigns", body := "", mode := .json
    hasCallback := false, retry := false, callbackExecuted := false }

/-- The same descriptor with a user callback supplied. -/
def cbDesc : Desc := { plainDesc with hasCallback := true }

/-- The same descriptor already marked as retried. -/
def retriedDesc : Desc := { plainDesc with retry := true }

/-- An authentication response body holding an access token. -/
def authBodyOk : String :=
  jsonStringify (.obj (.cons keyAccessToken (.str ['t', '2']) .nil))

/-- Transport oracle: every exchange returns status 500 with body `boom`. -/
def oracle500 : Nat → TransportResult := fun _ => .ok 500 "boom"

/-- Transport oracle: an authentication exchange, then a 401 rejection. -/
def oracleAuthThen401 : Nat → TransportResult
  | 0 => .ok 200 authBodyOk
  | 1 => .ok 401 "denied"
  | _ => .fail "unused"

/-- Transport oracle: a 500 failure whose body happens to contain the text
`401`, then an authentication exchange, then the same 500 again. -/
def oracle500With401Text : Nat → TransportResult
  | 0 => .ok 500 "x401x"
  | 1 => .ok 200 authBodyOk
  | 2 => .ok 500 "x401x"
  | _ => .fail "unused"

/-- Transport oracle: every exchange succeeds with a tiny JSON body. -/
def oracleOk : Nat → TransportResult := fun _ => .ok 200 "true"

/-! ## Basic lemmas about the handlers and completion steps -/

theorem applyHandler_cbLog (m : Mode) (s : Nat) (b : String) (st : St) :
    ((applyHandler m s b st).2).cbLog = st.cbLog := by
  cases m with
  | auth => rfl
  | json => rfl
  | text => rfl
  | file fp => simp only [applyHandler]; split <;> rfl

theorem applyHandler_execLog (m : Mode) (s : Nat) (b : String) (st : St) :
    ((applyHandler m s b st).2).execLog = st.execLog := by
  cases m with
  | auth => rfl
  | json => rfl
  | text => rfl
  | file fp => simp only [applyHandler]; split <;> rfl

/-- On a completed response with a non-2xx status, every non-auth handler
fails with the `process` rejection carrying status and body. -/
theorem applyHandler_bad (m : Mode) (s : Nat) (b : String) (st : St)
    (hm : m ≠ .auth) (hs : statusSuccess s = false) :
    (applyHandler m s b st).1 = .failure (badResponseMsg s b) := by
  cases m with
  | auth => exact absurd rfl hm
  | json => simp [applyHandler, process, hs]
  | text => simp [applyHandler, process, hs]
  | file fp => simp only [applyHandler]; split <;> simp [process, hs]

theorem executeRequest_cbLog (d : Desc) (st : St) :
    ((executeRequest d st).2).cbLog = st.cbLog := by
  cases h : st.oracle st.calls with
  | ok s b => simp [executeRequest, h, applyHandler_cbLog]
  | fail msg => simp [executeRequest, h]

theorem executeRequest_execLog (d : Desc) (st : St) :
    ((executeRequest d st).2).execLog = st.execLog ++ [d.path] := by
  cases h : st.oracle st.calls with
  | ok s b => simp [executeRequest, h, applyHandler_execLog]
  | fail msg => simp [executeRequest, h]

theorem resolveRequest_execLog (d : Desc) (st : St) (v : JsVal) :
    (resolveRequest d st v).st.execLog = st.execLog := by
  unfold resolveRequest; split <;> rfl

theorem rejectRequest_execLog (d : Desc) (st : St) (e : String) :
    (rejectRequest d st e).st.execLog = st.execLog := by
  unfold rejectRequest; split <;> rfl

theorem resolveRequest_retry (d : Desc) (st : St) (v : JsVal) :
    (resolveRequest d st v).desc.retry = d.retry := by
  unfold resolveRequest; split <;> rfl

theorem rejectRequest_retry (d : Desc) (st : St) (e : String) :
    (rejectRequest d st e).desc.retry = d.retry := by
  unfold rejectRequest; split <;> rfl

/-- On an already-retried descriptor `decideWhetherToRequeue` rejects
directly: the guard `err.toString().indexOf('401') > -1 && !r.retry` is
false whatever the error text. -/
theorem noRetry_reject (recur : Desc → St → PRes) (d : Desc) (st : St)
    (e : String) (h : d.retry = true) :
    decideWhetherToRequeue recur d st e = rejectRequest d st e := by
  unfold decideWhetherToRequeue
  simp [h]

/-! ## Claim C4: the credential check -/

/-- C4.  `checkAuthentication` is a pure predicate over the credential
state and the descriptor: a request proceeds without (re)authenticating
iff (the stored token is a non-empty string AND the descriptor is not
marked retried) OR its path is the authentication endpoint; in particular
a request for the authentication path is allowed under any token state,
including the initial empty token. -/
theorem c4 :
    (∀ (s : String) (d : Desc),
        checkAuthentication (some (.str s.data)) d = true ↔
          ((s ≠ "" ∧ d.retry = false) ∨ d.path = authPath)) ∧
    (∀ (t : JsVal) (d : Desc), d.path = authPath →
        checkAuthentication t d = true) := by
  constructor
  · intro s d
    simp only [checkAuthentication, truthy, Bool.or_eq_true, Bool.and_eq_true,
      Bool.not_eq_true', beq_iff_eq, List.isEmpty_eq_true]
    constructor
    · rintro (⟨h1, h2⟩ | h3)
      · exact Or.inl ⟨fun hs => by simp [hs] at h1, h2⟩
      · exact Or.inr h3
    · rintro (⟨h1, h2⟩ | h3)
      · refine Or.inl ⟨?_, h2⟩
        cases s with
        | mk l => cases l <;> simp_all
      · exact Or.inr h3
  · intro t d h
    simp [checkAuthentication, h]

/-- Witness for C4: the bootstrap allowance at the empty initial token. -/
theorem c4_witness :
    checkAuthentication (some (.str "".data)) authDesc = true :=
  (c4.1 "" authDesc).mpr (Or.inr rfl)

/-! ## Claim C5 (corrected): status classification -/

/-- Counterexample to C5: the claim calls every status whose string form
is "2xx" a success, e.g. 299; but the unanchored regex `20[0-9]` rejects
299, and `process` rejects the response. -/
theorem c5_counterexample :
    statusSuccess 299 = false ∧
    applyHandler .json 299 "ok" (baseSt oracleOk) =
      (.failure (badResponseMsg 299 "ok"), baseSt oracleOk) :=
  ⟨by decide, rfl⟩

set_option maxRecDepth 10000 in
/-- C5 as amended.  The Response Processor classifies a status as success
iff its decimal string contains "20" immediately followed by a digit: for
three-digit statuses this means exactly 200–209 (so 299 fails), and the
match being unanchored, a status such as 1200 also passes.  Every status
classified as failure makes `process` reject with an error carrying the
status code and the raw body. -/
theorem c5_amended :
    (∀ s : Nat, s < 1000 → 100 ≤ s →
        (statusSuccess s = true ↔ (200 ≤ s ∧ s ≤ 209))) ∧
    statusSuccess 1200 = true ∧
    (∀ (s : Nat) (b : String) (st : St), statusSuccess s = false →
        (applyHandler .json s b st).1 = .failure (badResponseMsg s b)) := by
  refine ⟨by decide, by decide, ?_⟩
  intro s b st h
  simp [applyHandler, process, h]

/-- Witness for C5 (amended): 204 succeeds, 299 and 503 fail with the
diagnostic rejection. -/
theorem c5_witness :
    statusSuccess 204 = true ∧
    (applyHandler .json 503 "oops" (baseSt oracleOk)).1 =
      .failure (badResponseMsg 503 "oops") :=
  ⟨(c5_amended.1 204 (by decide) (by decide)).mpr (by decide),
   c5_amended.2.2 503 "oops" (baseSt oracleOk) (by decide)⟩

/-! ## Claim C7 (corrected): the authentication response handler -/

/-- Counterexample to C7: an authentication body that parses to an object
with no access-token field does NOT fail — `processAuth` resolves with
`undefined` and stores `undefined` as the token. -/
theorem c7_counterexample :
    jsonParse (String.mk [lbrace, rbrace]) = some (.obj .nil) ∧
    processAuth (String.mk [lbrace, rbrace]) (some (.str ['o', 'l', 'd'])) =
      (.success none, none) :=
  ⟨rfl, rfl⟩

/-- C7 as amended.  `processAuth` fails with the auth error exactly when
reading the token out of the body throws: the body is malformed JSON, or
it parses to `null` (property access throws).  When the body parses to an
object, the handler resolves with the value of its access-token field —
`undefined` if the field is missing — and stores that value as the token;
a non-null, non-object body likewise resolves with `undefined`. -/
theorem c7_amended :
    (∀ (b : String) (t : JsVal), jsonParse b = none →
        processAuth b t = (.failure authErrorMsg, t)) ∧
    (∀ (b : String) (t : JsVal), jsonParse b = some .null →
        processAuth b t = (.failure authErrorMsg, t)) ∧
    (∀ (b : String) (t : JsVal) (kvs : JObj), jsonParse b = some (.obj kvs) →
        processAuth b t =
          (.success (jlookup kvs keyAccessToken), jlookup kvs keyAccessToken)) ∧
    (∀ (b : String) (t : JsVal) (n : Int), jsonParse b = some (.num n) →
        processAuth b t = (.success none, none)) := by
  refine ⟨?_, ?_, ?_, ?_⟩ <;> intro b t h' <;>
    first
    | (simp [processAuth, h'])
    | (intro h; simp [processAuth, h])

/-- Witness for C7 (amended): malformed JSON fails with the auth error. -/
theorem c7_witness :
    processAuth "nope" none = (.failure authErrorMsg, none) :=
  c7_amended.1 "nope" none rfl

/-! ## Claim C9: the empty-body convention -/

/-- C9.  A successful response whose body is empty — or whitespace-only,
since the body is trimmed first — resolves to the boolean `true` in both
JSON mode and raw-text mode. -/
theorem c9 :
    (∀ st : St, (applyHandler .json 204 "" st).1 = .success (some (.bool true))) ∧
    (∀ st : St, (applyHandler .text 200 "" st).1 = .success (some (.bool true))) ∧
    (∀ (s : Nat) (b : String) (st : St), statusSuccess s = true →
        trimChars b.data = [] →
        (applyHandler .json s b st).1 = .success (some (.bool true)) ∧
        (applyHandler .text s b st).1 = .success (some (.bool true))) := by
  refine ⟨fun st => rfl, fun st => rfl, ?_⟩
  intro s b st hs ht
  constructor <;> simp [applyHandler, process, parseJSON, parseResponse, hs, ht]

/-- Witness for C9: a whitespace-only body under a 200 status. -/
theorem c9_witness :
    (applyHandler .json 200 "  " (baseSt oracleOk)).1 = .success (some (.bool true)) ∧
    (applyHandler .text 200 "  " (baseSt oracleOk)).1 = .success (some (.bool true)) :=
  c9.2.2 200 "  " (baseSt oracleOk) (by decide) (by decide)

/-! ## Claim C10: the parser runs even on rejected statuses -/

/-- C10.  `process` rejects a non-2xx status but still invokes the
mode-specific parser on the trimmed body: the caller observes the
rejection (the parser's own settlement is discarded), while the parser's
side effects remain — in file-write mode the trimmed response body is
written to the destination file even though the operation reports
failure. -/
theorem c10 :
    ∀ (s : Nat) (b fp : String) (st : St), statusSuccess s = false →
      st.fsOk = true →
      (applyHandler (.file fp) s b st).1 = .failure (badResponseMsg s b) ∧
      (applyHandler (.file fp) s b st).2.fileWrites =
        st.fileWrites ++ [(fp, String.mk (trimChars b.data))] := by
  intro s b fp st hs hfs
  constructor <;> simp [applyHandler, process, hs, hfs]

/-- Witness for C10: a 503 response in file-write mode is rejected, yet
the trimmed body lands in the write log. -/
theorem c10_witness :
    (applyHandler (.file "out.csv") 503 " data " (baseSt oracleOk)).1 =
      .failure (badResponseMsg 503 " data ") ∧
    (applyHandler (.file "out.csv") 503 " data " (baseSt oracleOk)).2.fileWrites =
      [] ++ [("out.csv", String.mk (trimChars " data ".data))] :=
  c10 503 " data " "out.csv" (baseSt oracleOk) (by decide) rfl

/-! ## Lemmas about one unfolding of the pipeline -/

/-- A completed exchange with a bad status makes the execution phase fail
with the `process` rejection (for any non-auth handler). -/
theorem executeRequest_bad (d : Desc) (st : St) (s : Nat) (b : String)
    (ho : st.oracle st.calls = .ok s b) (hm : d.mode ≠ .auth)
    (hs : statusSuccess s = false) :
    (executeRequest d st).1 = .failure (badResponseMsg s b) := by
  simp [executeRequest, ho, applyHandler_bad _ _ _ _ hm hs]

/-- A transport-level failure propagates unchanged out of
`executeRequest`. -/
theorem executeRequest_fail (d : Desc) (st : St) (m : String)
    (ho : st.oracle st.calls = .fail m) :
    (executeRequest d st).1 = .failure m := by
  simp [executeRequest, ho]

/-- One unfolding of the pipeline on an authorized descriptor whose
execution fails with an error that does not take the retry branch (either
its text lacks `401`, or the descriptor is already retried): the failure
goes straight to `rejectRequest`. -/
theorem step_surface (n : Nat) (d : Desc) (st : St) (e : String)
    (hca : checkAuthentication st.token d = true)
    (hex : (executeRequest d st).1 = .failure e)
    (hg : contains401 e = false ∨ d.retry = true) :
    mapiRequest (n + 1) d st = rejectRequest d (executeRequest d st).2 e := by
  show pipelineStep (mapiRequest n) d st = _
  unfold pipelineStep
  rw [hca]
  simp only [if_true]
  simp only [executePhase]
  rw [hex]
  rcases hg with hg | hg <;> simp [decideWhetherToRequeue, hg]

/-! ## Claim C3 (corrected): failure delivery to the two protocols -/

/-- Counterexample to C3: with a user callback supplied, a plain 500
failure invokes the callback with the error but leaves the returned
promise pending — it is never rejected, so the two completion protocols do
not both observe the error. -/
theorem c3_counterexample :
    (mapiRequest 5 cbDesc (baseSt oracle500)).out = .pending ∧
    (mapiRequest 5 cbDesc (baseSt oracle500)).st.cbLog =
      [.failure (badResponseMsg 500 "boom")] :=
  ⟨rfl, rfl⟩

/-- C3 as amended.  On a failure that is not retried: when a callback was
supplied (and not yet delivered) the callback alone receives the error —
as `callback(err)`, with no result argument — and the returned awaitable
is left unsettled; the awaitable is rejected with the error exactly when
no callback was supplied. -/
theorem c3_amended :
    ∀ (n : Nat) (d : Desc) (st : St) (s : Nat) (b : String),
      checkAuthentication st.token d = true →
      st.oracle st.calls = .ok s b →
      d.mode ≠ .auth →
      statusSuccess s = false →
      contains401 (badResponseMsg s b) = false →
      d.callbackExecuted = false →
      (d.hasCallback = true →
        (mapiRequest (n + 1) d st).out = .pending ∧
        (mapiRequest (n + 1) d st).st.cbLog =
          st.cbLog ++ [.failure (badResponseMsg s b)]) ∧
      (d.hasCallback = false →
        (mapiRequest (n + 1) d st).out = .rejected (badResponseMsg s b) ∧
        (mapiRequest (n + 1) d st).st.cbLog = st.cbLog) := by
  intro n d st s b hca ho hm hs h401 hcbe
  have hexec := executeRequest_bad d st s b ho hm hs
  have hstep := step_surface n d st (badResponseMsg s b) hca hexec (Or.inl h401)
  have hlog := executeRequest_cbLog d st
  constructor
  · intro hcb
    rw [hstep]
    unfold rejectRequest
    simp [hcb, hcbe, hlog]
  · intro hcb
    rw [hstep]
    unfold rejectRequest
    simp [hcb, hlog]

/-- Witness for C3 (amended): the concrete 500 scenario, with and without
a callback. -/
theorem c3_witness :
    ((mapiRequest 3 cbDesc (baseSt oracle500)).out = .pending ∧
      (mapiRequest 3 cbDesc (baseSt oracle500)).st.cbLog =
        (baseSt oracle500).cbLog ++ [.failure (badResponseMsg 500 "boom")]) ∧
    ((mapiRequest 3 plainDesc (baseSt oracle500)).out =
        .rejected (badResponseMsg 500 "boom") ∧
      (mapiRequest 3 plainDesc (baseSt oracle500)).st.cbLog =
        (baseSt oracle500).cbLog) :=
  ⟨(c3_amended 2 cbDesc (baseSt oracle500) 500 "boom" rfl rfl (by decide)
      (by decide) (by decide) rfl).1 rfl,
   (c3_amended 2 plainDesc (baseSt oracle500) 500 "boom" rfl rfl (by decide)
      (by decide) (by decide) rfl).2 rfl⟩

/-! ## Claim C6 (corrected): which failures are retried -/

/-- Counterexample to C6: a failure with HTTP status 500 — not 401 — whose
body text happens to contain `401` IS retried: the descriptor's transport
execution happens twice (plus an authentication exchange in between), not
once as the claim requires for non-401 statuses. -/
theorem c6_counterexample :
    statusSuccess 500 = false ∧
    oracle500With401Text 0 = .ok 500 "x401x" ∧
    (mapiRequest 5 plainDesc (baseSt oracle500With401Text)).st.execLog =
      ["/v1/campaigns", authPath, "/v1/campaigns"] ∧
    (mapiRequest 5 plainDesc (baseSt oracle500With401Text)).out =
      .rejected (badResponseMsg 500 "x401x") :=
  ⟨by decide, rfl, rfl, rfl⟩

/-- C6 as amended.  The retry branch is keyed on the presence of the text
`401` in the failure's string representation, not on the HTTP status: any
failure — completed response or transport-level error — whose text lacks
`401` is surfaced on first occurrence with zero retries (a single
transport execution and a terminal `rejectRequest`). -/
theorem c6_amended :
    (∀ (n : Nat) (d : Desc) (st : St) (s : Nat) (b : String),
        checkAuthentication st.token d = true →
        st.oracle st.calls = .ok s b →
        d.mode ≠ .auth →
        statusSuccess s = false →
        contains401 (badResponseMsg s b) = false →
        mapiRequest (n + 1) d st =
          rejectRequest d (executeRequest d st).2 (badResponseMsg s b) ∧
        ((executeRequest d st).2).execLog = st.execLog ++ [d.path]) ∧
    (∀ (n : Nat) (d : Desc) (st : St) (m : String),
        checkAuthentication st.token d = true →
        st.oracle st.calls = .fail m →
        contains401 m = false →
        mapiRequest (n + 1) d st = rejectRequest d (executeRequest d st).2 m ∧
        ((executeRequest d st).2).execLog = st.execLog ++ [d.path]) := by
  constructor
  · intro n d st s b hca ho hm hs h401
    exact ⟨step_surface n d st _ hca (executeRequest_bad d st s b ho hm hs)
        (Or.inl h401),
      executeRequest_execLog d st⟩
  · intro n d st m hca ho h401
    exact ⟨step_surface n d st m hca (executeRequest_fail d st m ho) (Or.inl h401),
      executeRequest_execLog d st⟩

/-- Witness for C6 (amended): a plain 500 failure surfaces immediately
after a single transport execution. -/
theorem c6_witness :
    mapiRequest 3 plainDesc (baseSt oracle500) =
      rejectRequest plainDesc (executeRequest plainDesc (baseSt oracle500)).2
        (badResponseMsg 500 "boom") ∧
    ((executeRequest plainDesc (baseSt oracle500)).2).execLog =
      (baseSt oracle500).execLog ++ [plainDesc.path] :=
  c6_amended.1 2 plainDesc (baseSt oracle500) 500 "boom" rfl rfl (by decide)
    (by decide) (by decide)

/-! ## Retry-flag monotonicity and the transport-execution bound -/

/-- The execution phase never lowers the retry flag. -/
theorem executePhase_retry (recur : Desc → St → PRes) (d : Desc) (st : St)
    (h : d.retry = true) : (executePhase recur d st).desc.retry = true := by
  simp only [executePhase]
  cases hex : (executeRequest d st).1 with
  | success v => simp [resolveRequest_retry, h]
  | failure e =>
    simp [noRetry_reject recur d (executeRequest d st).2 e h,
      rejectRequest_retry, h]

/-- Once `r.retry` is set it stays set for the rest of the descriptor's
lifetime: the flag transitions false→true at most once. -/
theorem retry_preserved :
    ∀ (fuel : Nat) (d : Desc) (st : St), d.retry = true →
      (mapiRequest fuel d st).desc.retry = true
  | 0, _, _, h => h
  | fuel + 1, d, st, h => by
    show (pipelineStep (mapiRequest fuel) d st).desc.retry = true
    unfold pipelineStep
    split
    · exact executePhase_retry _ d st h
    · cases ha : (mapiRequest fuel authDesc st).out with
      | pending => simp [ha, h]
      | resolved v => simp only [ha]; exact executePhase_retry _ d _ h
      | rejected e =>
        simp only [ha]
        rw [noRetry_reject _ d _ e h, rejectRequest_retry]
        exact h

/-- Count of transport executions of path `p` added by
`decideWhetherToRequeue`: at most one, and only when the descriptor was
not yet retried and targets `p`. -/
theorem decide_count (recur : Desc → St → PRes) (d : Desc) (st : St)
    (e p : String)
    (hrec : ∀ (d' : Desc) (st' : St),
      (recur d' st').st.execLog.count p ≤
        st'.execLog.count p +
          (if d'.path = p then (if d'.retry = true then 1 else 2) else 0)) :
    (decideWhetherToRequeue recur d st e).st.execLog.count p ≤
      st.execLog.count p + (if d.path = p ∧ d.retry = false then 1 else 0) := by
  unfold decideWhetherToRequeue
  split
  · next hguard =>
    have hretry : d.retry = false := by
      have h2 := hguard
      simp at h2
      exact h2.2
    have hr := hrec { d with retry := true } st
    simp only at hr
    cases ho : (recur { d with retry := true } st).out with
    | pending =>
      simp only [ho]
      by_cases hdp : d.path = p <;> simp [hdp, hretry] at hr ⊢ <;> omega
    | resolved v =>
      simp only [ho, resolveRequest_execLog]
      by_cases hdp : d.path = p <;> simp [hdp, hretry] at hr ⊢ <;> omega
    | rejected e2 =>
      simp only [ho, rejectRequest_execLog]
      by_cases hdp : d.path = p <;> simp [hdp, hretry] at hr ⊢ <;> omega
  · rw [rejectRequest_execLog]
    exact Nat.le_add_right _ _

/-- Count of transport executions of path `p` added by the execution
phase: the one call just made, plus at most one more from the retry branch
when the descriptor targets `p` and was not yet retried. -/
theorem execPhase_count (recur : Desc → St → PRes) (d : Desc) (st : St)
    (p : String)
    (hrec : ∀ (d' : Desc) (st' : St),
      (recur d' st').st.execLog.count p ≤
        st'.execLog.count p +
          (if d'.path = p then (if d'.retry = true then 1 else 2) else 0)) :
    (executePhase recur d st).st.execLog.count p ≤
      st.execLog.count p +
        (if d.path = p then (if d.retry = true then 1 else 2) else 0) := by
  simp only [executePhase]
  have hlog := executeRequest_execLog d st
  cases hex : (executeRequest d st).1 with
  | success v =>
    rw [resolveRequest_execLog, hlog, List.count_append]
    by_cases hdp : d.path = p
    · subst hdp
      cases hr : d.retry <;>
        simp [List.count_cons, List.count_nil]
    · simp [List.count_cons, List.count_nil, hdp, Ne.symm hdp]
  | failure e =>
    have hd := decide_count recur d ((executeRequest d st).2) e p hrec
    rw [hlog, List.count_append] at hd
    refine le_trans hd ?_
    by_cases hdp : d.path = p
    · subst hdp
      cases hr : d.retry <;>
        simp [List.count_cons, List.count_nil, hr]
    · simp [List.count_cons, List.count_nil, hdp, Ne.symm hdp]

/-- Count of transport executions of path `p ≠ authPath` added by one
pipeline step: the bootstrap authentication only adds executions of the
auth path, so at most two executions of `p` happen (one, if the descriptor
was already retried). -/
theorem step_count (recur : Desc → St → PRes) (d : Desc) (st : St)
    (p : String) (hp : p ≠ authPath)
    (hrec : ∀ (d' : Desc) (st' : St),
      (recur d' st').st.execLog.count p ≤
        st'.execLog.count p +
          (if d'.path = p then (if d'.retry = true then 1 else 2) else 0)) :
    (pipelineStep recur d st).st.execLog.count p ≤
      st.execLog.count p +
        (if d.path = p then (if d.retry = true then 1 else 2) else 0) := by
  unfold pipelineStep
  split
  · exact execPhase_count recur d st p hrec
  · have ha0 : (recur authDesc st).st.execLog.count p ≤ st.execLog.count p := by
      have ha := hrec authDesc st
      rwa [if_neg (fun h => hp (h.symm.trans rfl))] at ha
    cases ho : (recur authDesc st).out with
    | pending =>
      simp only [ho]
      exact le_trans ha0 (Nat.le_add_right _ _)
    | resolved v =>
      simp only [ho]
      refine le_trans (execPhase_count recur d _ p hrec) ?_
      exact Nat.add_le_add_right ha0 _
    | rejected e =>
      simp only [ho]
      refine le_trans (decide_count recur d _ e p hrec) ?_
      refine le_trans (Nat.add_le_add_right ha0 _) ?_
      by_cases hdp : d.path = p
      · cases hr : d.retry <;> simp [hdp, hr]
      · simp [hdp]

/-- The transport-execution bound for the whole pipeline: a descriptor for
path `p` (distinct from the auth path) is executed at most twice — at most
once when it is already marked retried. -/
theorem mapi_count :
    ∀ (fuel : Nat) (d : Desc) (st : St) (p : String), p ≠ authPath →
      (mapiRequest fuel d st).st.execLog.count p ≤
        st.execLog.count p +
          (if d.path = p then (if d.retry = true then 1 else 2) else 0)
  | 0, _, _, _, _ => Nat.le_add_right _ _
  | fuel + 1, d, st, p, hp =>
    step_count (mapiRequest fuel) d st p hp
      (fun d' st' => mapi_count fuel d' st' p hp)

/-! ## Claim C1: at most one authentication retry -/

/-- C1.  (i) The retry flag never transitions back: once `r.retry` is
true it stays true, so it goes false→true at most once.  (ii) Across a
whole pipeline run, a descriptor for path `p` is executed against the
transport at most twice, and at most once when it is already marked
retried — there is never a second retry.  (iii) When a 401-classified
failure reaches `decideWhetherToRequeue` while the flag is already true,
the decision is a terminal `rejectRequest` with that very error, and it
performs no further transport execution. -/
theorem c1 :
    (∀ (fuel : Nat) (d : Desc) (st : St), d.retry = true →
        (mapiRequest fuel d st).desc.retry = true) ∧
    (∀ (fuel : Nat) (d : Desc) (st : St) (p : String), p ≠ authPath →
        (mapiRequest fuel d st).st.execLog.count p ≤
          st.execLog.count p +
            (if d.path = p then (if d.retry = true then 1 else 2) else 0)) ∧
    (∀ (fuel : Nat) (d : Desc) (st : St) (e : String), d.retry = true →
        contains401 e = true →
        decideWhetherToRequeue (mapiRequest fuel) d st e = rejectRequest d st e ∧
        (rejectRequest d st e).st.execLog = st.execLog) :=
  ⟨retry_preserved, mapi_count,
    fun fuel d st e h _ =>
      ⟨noRetry_reject (mapiRequest fuel) d st e h, rejectRequest_execLog d st e⟩⟩

/-- Witness for C1: a retried descriptor seeing a second 401 makes exactly
one more transport execution of its path and terminates in
`rejectRequest`. -/
theorem c1_witness :
    ((mapiRequest 5 retriedDesc (baseSt oracleAuthThen401)).st.execLog.count
        "/v1/campaigns" ≤
      ((baseSt oracleAuthThen401).execLog.count "/v1/campaigns") + 1) ∧
    decideWhetherToRequeue (mapiRequest 3) retriedDesc
        (baseSt oracleAuthThen401) "Error: 401 denied" =
      rejectRequest retriedDesc (baseSt oracleAuthThen401) "Error: 401 denied" := by
  constructor
  · have h := c1.2.1 5 retriedDesc (baseSt oracleAuthThen401) "/v1/campaigns"
      (by decide)
    simpa [retriedDesc, plainDesc] using h
  · exact (c1.2.2 3 retriedDesc (baseSt oracleAuthThen401) "Error: 401 denied"
      rfl (by decide)).1

/-! ## The callback-delivery invariant -/

theorem resolveRequest_out (d : Desc) (st : St) (v : JsVal) :
    (resolveRequest d st v).out = .resolved v := by
  unfold resolveRequest; split <;> rfl

/-! ### Step equations for the pipeline phases -/

theorem executePhase_success (recur : Desc → St → PRes) (d : Desc) (st : St)
    (v : JsVal) (hex : (executeRequest d st).1 = .success v) :
    executePhase recur d st = resolveRequest d (executeRequest d st).2 v := by
  simp only [executePhase]
  rw [hex]

theorem executePhase_failure (recur : Desc → St → PRes) (d : Desc) (st : St)
    (e : String) (hex : (executeRequest d st).1 = .failure e) :
    executePhase recur d st =
      decideWhetherToRequeue recur d (executeRequest d st).2 e := by
  simp only [executePhase]
  rw [hex]

theorem pipelineStep_auth_true (recur : Desc → St → PRes) (d : Desc) (st : St)
    (hca : checkAuthentication st.token d = true) :
    pipelineStep recur d st = executePhase recur d st := by
  unfold pipelineStep
  rw [if_pos hca]

theorem pipelineStep_auth_pending (recur : Desc → St → PRes) (d : Desc)
    (st : St) (hca : checkAuthentication st.token d = false)
    (ho : (recur authDesc st).out = .pending) :
    pipelineStep recur d st =
      { out := .pending, desc := d, st := (recur authDesc st).st } := by
  unfold pipelineStep
  rw [if_neg (by simp [hca])]
  simp only [ho]

theorem pipelineStep_auth_resolved (recur : Desc → St → PRes) (d : Desc)
    (st : St) (v : JsVal) (hca : checkAuthentication st.token d = false)
    (ho : (recur authDesc st).out = .resolved v) :
    pipelineStep recur d st = executePhase recur d (recur authDesc st).st := by
  unfold pipelineStep
  rw [if_neg (by simp [hca])]
  simp only [ho]

theorem pipelineStep_auth_rejected (recur : Desc → St → PRes) (d : Desc)
    (st : St) (e : String) (hca : checkAuthentication st.token d = false)
    (ho : (recur authDesc st).out = .rejected e) :
    pipelineStep recur d st =
      decideWhetherToRequeue recur d (recur authDesc st).st e := by
  unfold pipelineStep
  rw [if_neg (by simp [hca])]
  simp only [ho]

/-- Guard-false form of `decideWhetherToRequeue` (no `401` in the text, or
already retried). -/
theorem decide_noRequeue (recur : Desc → St → PRes) (d : Desc) (st : St)
    (e : String) (hg : (contains401 e && !d.retry) = false) :
    decideWhetherToRequeue recur d st e = rejectRequest d st e := by
  unfold decideWhetherToRequeue
  rw [if_neg (by simp [hg])]

/-- Guard-true form of `decideWhetherToRequeue`: the retried recursive
run's settlement flows into the completion steps. -/
theorem decide_requeue (recur : Desc → St → PRes) (d : Desc) (st : St)
    (e : String) (hg : (contains401 e && !d.retry) = true) :
    decideWhetherToRequeue recur d st e =
      (match (recur { d with retry := true } st).out with
       | .pending =>
         { out := .pending, desc := (recur { d with retry := true } st).desc
           st := (recur { d with retry := true } st).st }
       | .resolved v =>
         resolveRequest (recur { d with retry := true } st).desc
           (recur { d with retry := true } st).st v
       | .rejected e2 =>
         rejectRequest (recur { d with retry := true } st).desc
           (recur { d with retry := true } st).st e2) := by
  unfold decideWhetherToRequeue
  rw [if_pos hg]

theorem cbspec_resolveRequest (d : Desc) (st : St) (v : JsVal) :
    CbSpec d st.cbLog (resolveRequest d st v) := by
  unfold CbSpec resolveRequest
  split
  · next hguard =>
    have hg := hguard
    simp at hg
    refine ⟨rfl, ?_, ?_, ?_⟩
    · intro h; rw [h] at hg; exact absurd hg.1 (by simp)
    · intro h; rw [h] at hg; exact absurd hg.2 (by simp)
    · intro _ _; exact Or.inr ⟨.success v, rfl, rfl⟩
  · next hguard =>
    refine ⟨rfl, fun _ => ⟨rfl, rfl⟩, fun h => ⟨rfl, h⟩, ?_⟩
    intro hcb hne
    rw [hcb, hne] at hguard
    simp at hguard

theorem cbspec_rejectRequest (d : Desc) (st : St) (e : String) :
    CbSpec d st.cbLog (rejectRequest d st e) := by
  unfold CbSpec rejectRequest
  split
  · next hguard =>
    have hg := hguard
    simp at hg
    refine ⟨rfl, ?_, ?_, ?_⟩
    · intro h; rw [h] at hg; exact absurd hg.1 (by simp)
    · intro h; rw [h] at hg; exact absurd hg.2 (by simp)
    · intro _ _; exact Or.inr ⟨.failure e, rfl, rfl⟩
  · next hguard =>
    refine ⟨rfl, fun _ => ⟨rfl, rfl⟩, fun h => ⟨rfl, h⟩, ?_⟩
    intro hcb hne
    rw [hcb, hne] at hguard
    simp at hguard

/-- Chaining a second completion step onto a pipeline result preserves the
callback-delivery invariant. -/
theorem cbspec_after (d : Desc) (L0 : List CbCall) (r : PRes)
    (h : CbSpec d L0 r) (f : Desc → St → PRes)
    (hf : ∀ (d' : Desc) (st' : St), CbSpec d' st'.cbLog (f d' st')) :
    CbSpec d L0 (f r.desc r.st) := by
  obtain ⟨hcb, hnone, hdone, hfresh⟩ := h
  obtain ⟨bcb, bnone, bdone, bfresh⟩ := hf r.desc r.st
  refine ⟨bcb.trans hcb, ?_, ?_, ?_⟩
  · intro h0
    obtain ⟨hl, he⟩ := hnone h0
    obtain ⟨bl, be⟩ := bnone (hcb.trans h0)
    exact ⟨by rw [bl, hl], by rw [be, he]⟩
  · intro h0
    obtain ⟨hl, he⟩ := hdone h0
    obtain ⟨bl, be⟩ := bdone he
    exact ⟨by rw [bl, hl], be⟩
  · intro hc he
    rcases hfresh hc he with ⟨hl, hex⟩ | ⟨c, hl, hex⟩
    · rcases bfresh (hcb.trans hc) hex with ⟨bl, bex⟩ | ⟨c, bl, bex⟩
      · exact Or.inl ⟨by rw [bl, hl], bex⟩
      · exact Or.inr ⟨c, by rw [bl, hl], bex⟩
    · obtain ⟨bl, bex⟩ := bdone hex
      exact Or.inr ⟨c, by rw [bl, hl], bex⟩

theorem cbspec_decide (recur : Desc → St → PRes) (d : Desc) (st : St)
    (e : String)
    (hrec : ∀ (d' : Desc) (st' : St), CbSpec d' st'.cbLog (recur d' st')) :
    CbSpec d st.cbLog (decideWhetherToRequeue recur d st e) := by
  unfold decideWhetherToRequeue
  split
  · have hr := hrec { d with retry := true } st
    cases ho : (recur { d with retry := true } st).out with
    | pending =>
      simp only [ho]
      exact hr
    | resolved v =>
      simp only [ho]
      exact cbspec_after _ _ _ hr _ (fun d' st' => cbspec_resolveRequest d' st' v)
    | rejected e2 =>
      simp only [ho]
      exact cbspec_after _ _ _ hr _ (fun d' st' => cbspec_rejectRequest d' st' e2)
  · exact cbspec_rejectRequest d st e

theorem cbspec_execPhase (recur : Desc → St → PRes) (d : Desc) (st : St)
    (hrec : ∀ (d' : Desc) (st' : St), CbSpec d' st'.cbLog (recur d' st')) :
    CbSpec d st.cbLog (executePhase recur d st) := by
  simp only [executePhase]
  have hlog := executeRequest_cbLog d st
  cases hex : (executeRequest d st).1 with
  | success v =>
    have h := cbspec_resolveRequest d ((executeRequest d st).2) v
    rwa [hlog] at h
  | failure e =>
    have h := cbspec_decide recur d ((executeRequest d st).2) e hrec
    rwa [hlog] at h

theorem cbspec_step (recur : Desc → St → PRes) (d : Desc) (st : St)
    (hrec : ∀ (d' : Desc) (st' : St), CbSpec d' st'.cbLog (recur d' st')) :
    CbSpec d st.cbLog (pipelineStep recur d st) := by
  unfold pipelineStep
  split
  · exact cbspec_execPhase recur d st hrec
  · have halog : (recur authDesc st).st.cbLog = st.cbLog :=
      ((hrec authDesc st).2.1 rfl).1
    cases ho : (recur authDesc st).out with
    | pending =>
      simp only [ho]
      exact ⟨rfl, fun _ => ⟨halog, rfl⟩, fun h => ⟨halog, h⟩,
        fun _ hne => Or.inl ⟨halog, hne⟩⟩
    | resolved v =>
      simp only [ho]
      have h := cbspec_execPhase recur d ((recur authDesc st).st) hrec
      rwa [halog] at h
    | rejected e =>
      simp only [ho]
      have h := cbspec_decide recur d ((recur authDesc st).st) e hrec
      rwa [halog] at h

/-- The callback-delivery invariant holds of every pipeline run. -/
theorem cb_core :
    ∀ (fuel : Nat) (d : Desc) (st : St), CbSpec d st.cbLog (mapiRequest fuel d st)
  | 0, _d, _st =>
    ⟨rfl, fun _ => ⟨rfl, rfl⟩, fun h => ⟨rfl, h⟩, fun _ hne => Or.inl ⟨rfl, hne⟩⟩
  | fuel + 1, d, st => cbspec_step (mapiRequest fuel) d st (cb_core fuel)

/-! ## Completion: with enough fuel a callback descriptor always delivers -/

theorem resolveRequest_executed (d : Desc) (st : St) (v : JsVal)
    (h : d.hasCallback = true) :
    (resolveRequest d st v).desc.callbackExecuted = true := by
  unfold resolveRequest
  split
  · rfl
  · next hg =>
    simp [h] at hg
    exact hg

theorem rejectRequest_executed (d : Desc) (st : St) (e : String)
    (h : d.hasCallback = true) :
    (rejectRequest d st e).desc.callbackExecuted = true := by
  unfold rejectRequest
  split
  · rfl
  · next hg =>
    simp [h] at hg
    exact hg

/-- A pending `rejectRequest` means the callback branch fired. -/
theorem rejectRequest_pending (d : Desc) (st : St) (e : String)
    (h : (rejectRequest d st e).out = .pending) :
    d.hasCallback = true ∧ (rejectRequest d st e).desc.callbackExecuted = true := by
  unfold rejectRequest at h ⊢
  split at h
  · next hg =>
    simp at hg
    simp [hg.1, hg.2]
  · simp at h

/-- An already-retried descriptor for the auth path settles its promise in
one step when it has no callback. -/
theorem authRetriedSettle (n : Nat) (d : Desc) (st : St) (hp : d.path = authPath)
    (hcb : d.hasCallback = false) (hr : d.retry = true) :
    (mapiRequest (n + 1) d st).out ≠ .pending := by
  have hca : checkAuthentication st.token d = true := by
    simp [checkAuthentication, hp]
  have hstep : mapiRequest (n + 1) d st = pipelineStep (mapiRequest n) d st := rfl
  rw [hstep, pipelineStep_auth_true _ _ _ hca]
  cases hex : (executeRequest d st).1 with
  | success v =>
    rw [executePhase_success _ _ _ _ hex, resolveRequest_out]
    simp
  | failure e =>
    rw [executePhase_failure _ _ _ _ hex, noRetry_reject _ _ _ _ hr]
    simp [rejectRequest, hcb]

/-- Any descriptor for the auth path without a callback settles with fuel
at least two: the nested authentication promise cannot hang. -/
theorem authSettle (n : Nat) (d : Desc) (st : St) (hp : d.path = authPath)
    (hcb : d.hasCallback = false) :
    (mapiRequest (n + 2) d st).out ≠ .pending := by
  have hca : checkAuthentication st.token d = true := by
    simp [checkAuthentication, hp]
  have hstep : mapiRequest (n + 2) d st =
      pipelineStep (mapiRequest (n + 1)) d st := rfl
  rw [hstep, pipelineStep_auth_true _ _ _ hca]
  cases hex : (executeRequest d st).1 with
  | success v =>
    rw [executePhase_success _ _ _ _ hex, resolveRequest_out]
    simp
  | failure e =>
    rw [executePhase_failure _ _ _ _ hex]
    by_cases hg : (contains401 e && !d.retry) = true
    · rw [decide_requeue _ _ _ _ hg]
      have hs := authRetriedSettle n { d with retry := true }
        ((executeRequest d st).2) hp hcb rfl
      cases ho : (mapiRequest (n + 1) { d with retry := true }
          ((executeRequest d st).2)).out with
      | pending => exact absurd ho hs
      | resolved v =>
        simp only [ho]
        rw [resolveRequest_out]
        simp
      | rejected e2 =>
        simp only [ho]
        have hrcb : (mapiRequest (n + 1) { d with retry := true }
            ((executeRequest d st).2)).desc.hasCallback = false :=
          (cb_core (n + 1) _ _).1.trans hcb
        simp [rejectRequest, hrcb]
    · have hg2 : (contains401 e && !d.retry) = false := by
        revert hg
        cases contains401 e && !d.retry <;> simp
      rw [decide_noRequeue _ _ _ _ hg2]
      simp [rejectRequest, hcb]

/-- An already-retried descriptor whose promise hangs must have fired its
callback: pending outcomes only arise from the callback branch of
`rejectRequest` (given fuel for the nested authentication). -/
theorem retriedPendingFired (n : Nat) (d : Desc) (st : St) (hr : d.retry = true)
    (h : (mapiRequest (n + 3) d st).out = .pending) :
    (mapiRequest (n + 3) d st).desc.callbackExecuted = true := by
  have hstep : mapiRequest (n + 3) d st =
      pipelineStep (mapiRequest (n + 2)) d st := rfl
  by_cases hca : checkAuthentication st.token d = true
  · rw [hstep, pipelineStep_auth_true _ _ _ hca] at h ⊢
    cases hex : (executeRequest d st).1 with
    | success v =>
      rw [executePhase_success _ _ _ _ hex, resolveRequest_out] at h
      cases h
    | failure e =>
      rw [executePhase_failure _ _ _ _ hex, noRetry_reject _ _ _ _ hr] at h ⊢
      exact (rejectRequest_pending _ _ _ h).2
  · have hca2 : checkAuthentication st.token d = false := by
      revert hca
      cases checkAuthentication st.token d <;> simp
    have hs := authSettle n authDesc st rfl rfl
    cases ho : (mapiRequest (n + 2) authDesc st).out with
    | pending => exact absurd ho hs
    | resolved v =>
      rw [hstep, pipelineStep_auth_resolved _ _ _ v hca2 ho] at h ⊢
      cases hex : (executeRequest d (mapiRequest (n + 2) authDesc st).st).1 with
      | success w =>
        rw [executePhase_success _ _ _ _ hex, resolveRequest_out] at h
        cases h
      | failure e =>
        rw [executePhase_failure _ _ _ _ hex, noRetry_reject _ _ _ _ hr] at h ⊢
        exact (rejectRequest_pending _ _ _ h).2
    | rejected e =>
      rw [hstep, pipelineStep_auth_rejected _ _ _ e hca2 ho,
        noRetry_reject _ _ _ _ hr] at h ⊢
      exact (rejectRequest_pending _ _ _ h).2

/-- After `decideWhetherToRequeue` (with fuel for the nested runs) a
callback descriptor has always delivered its callback. -/
theorem decideComplete (m : Nat) (d : Desc) (st : St) (e : String)
    (hcb : d.hasCallback = true) :
    (decideWhetherToRequeue (mapiRequest (m + 3)) d st e).desc.callbackExecuted =
      true := by
  unfold decideWhetherToRequeue
  split
  · have hrcb : (mapiRequest (m + 3) { d with retry := true } st).desc.hasCallback =
        true := (cb_core (m + 3) _ _).1.trans hcb
    cases ho : (mapiRequest (m + 3) { d with retry := true } st).out with
    | pending =>
      simp only [ho]
      exact retriedPendingFired m _ st rfl ho
    | resolved v =>
      simp only [ho]
      exact resolveRequest_executed _ _ _ hrcb
    | rejected e2 =>
      simp only [ho]
      exact rejectRequest_executed _ _ _ hrcb
  · exact rejectRequest_executed _ _ _ hcb

theorem execPhaseComplete (m : Nat) (d : Desc) (st : St)
    (hcb : d.hasCallback = true) :
    (executePhase (mapiRequest (m + 3)) d st).desc.callbackExecuted = true := by
  simp only [executePhase]
  cases hex : (executeRequest d st).1 with
  | success v => exact resolveRequest_executed _ _ _ hcb
  | failure e => exact decideComplete m d _ e hcb

/-- With fuel ≥ 4 every pipeline run of a callback descriptor ends with
the delivered flag set. -/
theorem completion (n : Nat) (d : Desc) (st : St) (hcb : d.hasCallback = true) :
    (mapiRequest (n + 4) d st).desc.callbackExecuted = true := by
  show (pipelineStep (mapiRequest (n + 3)) d st).desc.callbackExecuted = true
  unfold pipelineStep
  split
  · exact execPhaseComplete n d st hcb
  · have hs := authSettle (n + 1) authDesc st rfl rfl
    cases ho : (mapiRequest (n + 3) authDesc st).out with
    | pending => exact absurd ho hs
    | resolved v =>
      simp only [ho]
      exact execPhaseComplete n d _ hcb
    | rejected e =>
      simp only [ho]
      exact decideComplete n d _ e hcb

/-! ## Claim C2: the callback fires exactly once -/

/-- C2.  For a descriptor carrying a user callback not yet delivered, a
pipeline run (with fuel for its bounded recursion) invokes the callback
exactly once — one entry is appended to the invocation log, and the
delivered flag ends true — however many retry/auth cycles happen inside.
Moreover no run ever invokes the callback of a descriptor whose delivered
flag is already set, nor of a descriptor without a callback. -/
theorem c2 :
    (∀ (n : Nat) (d : Desc) (st : St), d.hasCallback = true →
        d.callbackExecuted = false →
        ∃ c, (mapiRequest (n + 4) d st).st.cbLog = st.cbLog ++ [c] ∧
          (mapiRequest (n + 4) d st).desc.callbackExecuted = true) ∧
    (∀ (fuel : Nat) (d : Desc) (st : St), d.callbackExecuted = true →
        (mapiRequest fuel d st).st.cbLog = st.cbLog) ∧
    (∀ (fuel : Nat) (d : Desc) (st : St), d.hasCallback = false →
        (mapiRequest fuel d st).st.cbLog = st.cbLog) := by
  refine ⟨?_, ?_, ?_⟩
  · intro n d st hcb hcbe
    rcases (cb_core (n + 4) d st).2.2.2 hcb hcbe with ⟨hl, hex⟩ | ⟨c, hl, hex⟩
    · have hc := completion n d st hcb
      rw [hc] at hex
      cases hex
    · exact ⟨c, hl, hex⟩
  · intro fuel d st h
    exact ((cb_core fuel d st).2.2.1 h).1
  · intro fuel d st h
    exact ((cb_core fuel d st).2.1 h).1

/-- Witness for C2: a concrete run with a callback delivers exactly one
invocation. -/
theorem c2_witness :
    ∃ c, (mapiRequest 5 cbDesc (baseSt oracleOk)).st.cbLog =
        (baseSt oracleOk).cbLog ++ [c] ∧
      (mapiRequest 5 cbDesc (baseSt oracleOk)).desc.callbackExecuted = true :=
  c2.1 1 cbDesc (baseSt oracleOk) rfl rfl

/-! ## Decimal numerals round-trip -/

theorem isDigitC_digitChar (k : Nat) (h : k < 10) :
    isDigitC (digitChar k) = true := by
  interval_cases k <;> decide

theorem digitVal_digitChar (k : Nat) (h : k < 10) :
    digitVal (digitChar k) = k := by
  interval_cases k <;> decide

theorem isWsChar_digitChar (k : Nat) (h : k < 10) :
    isWsChar (digitChar k) = false := by
  interval_cases k <;> decide

/-- A digit character is none of the parser's dispatch characters. -/
theorem digitChar_ne (k : Nat) (h : k < 10) :
    digitChar k ≠ 'n' ∧ digitChar k ≠ 't' ∧ digitChar k ≠ 'f' ∧
    digitChar k ≠ '"' ∧ digitChar k ≠ '[' ∧ digitChar k ≠ lbrace ∧
    digitChar k ≠ '-' ∧ digitChar k ≠ ']' ∧ digitChar k ≠ ',' ∧
    digitChar k ≠ rbrace ∧ digitChar k ≠ ':' := by
  interval_cases k <;> exact ⟨by decide, by decide, by decide, by decide,
    by decide, by decide, by decide, by decide, by decide, by decide, by decide⟩

theorem digitsAux_head :
    ∀ (f n : Nat), n < f → ∃ k t, k < 10 ∧ digitsAux f n = digitChar k :: t
  | 0, n, h => absurd h (Nat.not_lt_zero n)
  | f + 1, n, h => by
    by_cases h10 : n < 10
    · exact ⟨n, [], h10, by simp [digitsAux, h10]⟩
    · have hlt : n / 10 < f := by
        have : n / 10 < n := Nat.div_lt_self (by omega) (by omega)
        omega
      obtain ⟨k, t, hk, ht⟩ := digitsAux_head f (n / 10) hlt
      exact ⟨k, t ++ [digitChar (n % 10)], hk, by simp [digitsAux, h10, ht]⟩

theorem digitsAux_snoc :
    ∀ (f n : Nat), n < f → ∃ l k, k < 10 ∧ digitsAux f n = l ++ [digitChar k]
  | 0, n, h => absurd h (Nat.not_lt_zero n)
  | f + 1, n, h => by
    by_cases h10 : n < 10
    · exact ⟨[], n, h10, by simp [digitsAux, h10]⟩
    · exact ⟨digitsAux f (n / 10), n % 10, by omega, by simp [digitsAux, h10]⟩

theorem digitsAux_mem :
    ∀ (f n : Nat), n < f → ∀ c ∈ digitsAux f n, ∃ j, j < 10 ∧ c = digitChar j
  | 0, n, h => absurd h (Nat.not_lt_zero n)
  | f + 1, n, h => by
    by_cases h10 : n < 10
    · intro c hc
      simp [digitsAux, h10] at hc
      exact ⟨n, h10, hc⟩
    · intro c hc
      have hlt : n / 10 < f := by
        have : n / 10 < n := Nat.div_lt_self (by omega) (by omega)
        omega
      simp [digitsAux, h10] at hc
      rcases hc with hc | hc
      · exact digitsAux_mem f (n / 10) hlt c hc
      · exact ⟨n % 10, by omega, hc⟩

theorem digitsAux_fold :
    ∀ (f n acc : Nat), n < f →
      List.foldl (fun a c => a * 10 + digitVal c) acc (digitsAux f n) =
        acc * 10 ^ (digitsAux f n).length + n
  | 0, n, _, h => absurd h (Nat.not_lt_zero n)
  | f + 1, n, acc, h => by
    by_cases h10 : n < 10
    · simp [digitsAux, h10, digitVal_digitChar n h10]
    · have hlt : n / 10 < f := by
        have : n / 10 < n := Nat.div_lt_self (by omega) (by omega)
        omega
      have ih := digitsAux_fold f (n / 10) acc hlt
      have hdm : 10 * (n / 10) + n % 10 = n := Nat.div_add_mod n 10
      simp only [digitsAux, h10, if_false, List.foldl_append, List.foldl_cons,
        List.foldl_nil, List.length_append, List.length_cons, List.length_nil,
        ih, digitVal_digitChar (n % 10) (by omega)]
      calc (acc * 10 ^ (digitsAux f (n / 10)).length + n / 10) * 10 + n % 10
          = acc * (10 ^ (digitsAux f (n / 10)).length * 10) +
              (10 * (n / 10) + n % 10) := by ring
        _ = acc * 10 ^ ((digitsAux f (n / 10)).length + (0 + 1)) + n := by
              rw [hdm, pow_succ]

theorem digitsToNat_natToChars (n : Nat) : digitsToNat (natToChars n) = n := by
  unfold digitsToNat natToChars
  rw [digitsAux_fold (n + 1) n 0 (by omega)]
  simp

theorem digits_take_drop :
    ∀ (ds rest : List Char), (∀ c ∈ ds, isDigitC c = true) → NumDelim rest →
      (ds ++ rest).takeWhile isDigitC = ds ∧
      (ds ++ rest).dropWhile isDigitC = rest := by
  intro ds
  induction ds with
  | nil =>
    intro rest _ hd
    rcases hd with rfl | ⟨c, t, rfl, hc⟩
    · simp
    · simp [List.takeWhile_cons, List.dropWhile_cons, hc]
  | cons c t ih =>
    intro rest hall hd
    have hc : isDigitC c = true := hall c (by simp)
    obtain ⟨h1, h2⟩ := ih rest (fun x hx => hall x (by simp [hx])) hd
    constructor <;>
      simp [List.takeWhile_cons, List.dropWhile_cons, hc, h1, h2]

theorem parseNatChars_natToChars (n : Nat) (rest : List Char)
    (hd : NumDelim rest) :
    parseNatChars (natToChars n ++ rest) = some (n, rest) := by
  have hall : ∀ c ∈ natToChars n, isDigitC c = true := by
    intro c hc
    obtain ⟨j, hj, rfl⟩ := digitsAux_mem (n + 1) n (by omega) c hc
    exact isDigitC_digitChar j hj
  obtain ⟨htake, hdrop⟩ := digits_take_drop (natToChars n) rest hall hd
  obtain ⟨k, t, hk, hht⟩ := digitsAux_head (n + 1) n (by omega)
  have hht2 : natToChars n = digitChar k :: t := hht
  unfold parseNatChars
  rw [htake, hdrop, hht2]
  show some (digitsToNat (digitChar k :: t), rest) = some (n, rest)
  rw [← hht2, digitsToNat_natToChars]

theorem parseNumber_serInt (n : Int) (rest : List Char) (hd : NumDelim rest) :
    parseNumber (serInt n ++ rest) = some (.num n, rest) := by
  unfold serInt
  by_cases hneg : n < 0
  · rw [if_pos hneg]
    have hp := parseNatChars_natToChars (-n).toNat rest hd
    have hcast : -((((-n).toNat : Nat)) : Int) = n := by omega
    show parseNumber ('-' :: (natToChars (-n).toNat ++ rest)) =
      some (.num n, rest)
    simp only [parseNumber, if_true]
    rw [hp, Option.map_some']
    rw [hcast]
  · rw [if_neg hneg]
    obtain ⟨k, t, hk, hht⟩ := digitsAux_head (n.toNat + 1) n.toNat (by omega)
    have hht2 : natToChars n.toNat = digitChar k :: t := hht
    have hnum := parseNatChars_natToChars n.toNat rest hd
    rw [hht2] at hnum ⊢
    have hne := (digitChar_ne k hk).2.2.2.2.2.2.1
    have hcast : (((n.toNat : Nat)) : Int) = n := by omega
    rw [List.cons_append] at hnum
    show parseNumber (digitChar k :: (t ++ rest)) = some (.num n, rest)
    simp only [parseNumber]
    rw [if_neg hne, hnum, Option.map_some']
    rw [hcast]

/-! ## String-literal round-trip -/

theorem parseStringBody_quote (rest : List Char) :
    parseStringBody ('"' :: rest) = some ([], rest) := by
  rw [parseStringBody.eq_def]
  simp

theorem parseStringBody_other (c : Char) (rest : List Char) (h1 : c ≠ '"')
    (h2 : c ≠ '\\') :
    parseStringBody (c :: rest) =
      (parseStringBody rest).map fun p => (c :: p.1, p.2) := by
  rw [parseStringBody.eq_def]
  simp [h1, h2]

theorem parseStringBody_escList :
    ∀ (s rest : List Char),
      parseStringBody (escList s ++ '"' :: rest) = some (s, rest) := by
  intro s
  induction s with
  | nil =>
    intro rest
    show parseStringBody ('"' :: rest) = some ([], rest)
    exact parseStringBody_quote rest
  | cons c t ih =>
    intro rest
    show parseStringBody (escChar c ++ escList t ++ '"' :: rest) = _
    unfold escChar
    split_ifs with h1 h2 h3 h4 h5
    · subst h1; simp [parseStringBody, unescape, ih]
    · subst h2; simp [parseStringBody, unescape, ih]
    · subst h3; simp [parseStringBody, unescape, ih]
    · subst h4; simp [parseStringBody, unescape, ih]
    · subst h5; simp [parseStringBody, unescape, ih]
    · show parseStringBody (c :: (escList t ++ '"' :: rest)) = _
      rw [parseStringBody_other c _ h1 h2, ih rest]
      rfl

/-! ## Shape of serialized output -/

theorem serInt_head (n : Int) :
    ∃ c t, serInt n = c :: t ∧ isWsChar c = false ∧ c ≠ ']' ∧ c ≠ ',' ∧
      c ≠ rbrace ∧ c ≠ ':' := by
  unfold serInt
  by_cases hneg : n < 0
  · exact ⟨'-', natToChars (-n).toNat, by rw [if_pos hneg], by decide,
      by decide, by decide, by decide, by decide⟩
  · obtain ⟨k, t, hk, hht⟩ := digitsAux_head (n.toNat + 1) n.toNat (by omega)
    have hne := digitChar_ne k hk
    exact ⟨digitChar k, t, by rw [if_neg hneg]; exact hht,
      isWsChar_digitChar k hk, hne.2.2.2.2.2.2.2.1, hne.2.2.2.2.2.2.2.2.1,
      hne.2.2.2.2.2.2.2.2.2.1, hne.2.2.2.2.2.2.2.2.2.2⟩

/-- Every serialized value starts with a non-whitespace character that is
not a closing delimiter. -/
theorem serialize_head (v : Json) :
    ∃ c t, serialize v = c :: t ∧ isWsChar c = false ∧ c ≠ ']' ∧ c ≠ ',' ∧
      c ≠ rbrace ∧ c ≠ ':' := by
  cases v with
  | null => exact ⟨'n', _, rfl, by decide, by decide, by decide, by decide, by decide⟩
  | bool b =>
    cases b with
    | true => exact ⟨'t', _, rfl, by decide, by decide, by decide, by decide, by decide⟩
    | false => exact ⟨'f', _, rfl, by decide, by decide, by decide, by decide, by decide⟩
  | num n =>
    obtain ⟨c, t, h, hw, h1, h2, h3, h4⟩ := serInt_head n
    exact ⟨c, t, h, hw, h1, h2, h3, h4⟩
  | str s => exact ⟨'"', _, rfl, by decide, by decide, by decide, by decide, by decide⟩
  | arr xs => exact ⟨'[', _, rfl, by decide, by decide, by decide, by decide, by decide⟩
  | obj kvs => exact ⟨lbrace, _, rfl, by decide, by decide, by decide, by decide, by decide⟩

theorem serialize_length_pos (v : Json) : 1 ≤ (serialize v).length := by
  obtain ⟨c, t, h, -⟩ := serialize_head v
  rw [h]
  simp

theorem skipWs_cons_of (c : Char) (t : List Char) (h : isWsChar c = false) :
    skipWs (c :: t) = c :: t := by
  simp [skipWs, List.dropWhile_cons, h]

theorem skipWs_serialize_append (v : Json) (rest : List Char) :
    skipWs (serialize v ++ rest) = serialize v ++ rest := by
  obtain ⟨c, t, h, hw, -⟩ := serialize_head v
  rw [h, List.cons_append, skipWs_cons_of c (t ++ rest) hw]

/-- Every serialized value ends with a non-whitespace character. -/
theorem serialize_snoc (v : Json) :
    ∃ l c, serialize v = l ++ [c] ∧ isWsChar c = false := by
  cases v with
  | null => exact ⟨['n', 'u', 'l'], 'l', rfl, by decide⟩
  | bool b =>
    cases b with
    | true => exact ⟨['t', 'r', 'u'], 'e', rfl, by decide⟩
    | false => exact ⟨['f', 'a', 'l', 's'], 'e', rfl, by decide⟩
  | num n =>
    show ∃ l c, serInt n = l ++ [c] ∧ isWsChar c = false
    unfold serInt
    by_cases hneg : n < 0
    · obtain ⟨l, k, hk, hl⟩ := digitsAux_snoc ((-n).toNat + 1) (-n).toNat (by omega)
      refine ⟨'-' :: l, digitChar k, ?_, isWsChar_digitChar k hk⟩
      rw [if_pos hneg]
      show '-' :: natToChars (-n).toNat = '-' :: l ++ [digitChar k]
      rw [show natToChars (-n).toNat = digitsAux ((-n).toNat + 1) (-n).toNat
        from rfl, hl]
      rfl
    · obtain ⟨l, k, hk, hl⟩ := digitsAux_snoc (n.toNat + 1) n.toNat (by omega)
      exact ⟨l, digitChar k, by rw [if_neg hneg]; exact hl,
        isWsChar_digitChar k hk⟩
  | str s =>
    exact ⟨'"' :: escList s, '"', by simp [serialize], by decide⟩
  | arr xs =>
    exact ⟨'[' :: serArr xs, ']', by simp [serialize], by decide⟩
  | obj kvs =>
    exact ⟨lbrace :: serObj kvs, rbrace, by simp [serialize], by decide⟩

/-- Serialized JSON is invariant under `trim`. -/
theorem trim_serialize (v : Json) : trimChars (serialize v) = serialize v := by
  obtain ⟨c, t, hh, hw, -⟩ := serialize_head v
  obtain ⟨l, c2, hs, hw2⟩ := serialize_snoc v
  have h1 : (serialize v).dropWhile isWsChar = serialize v := by
    rw [hh]
    simp [List.dropWhile_cons, hw]
  have h2 : (serialize v).reverse.dropWhile isWsChar = (serialize v).reverse := by
    rw [hs]
    simp [List.reverse_append, List.dropWhile_cons, hw2]
  unfold trimChars
  rw [h1, h2, List.reverse_reverse]

/-! ## Fuel bounds for the parser -/

theorem needV_pos (v : Json) : 1 ≤ needV v := by
  cases v <;> simp [needV]

mutual
theorem needV_le : ∀ v : Json, needV v ≤ (serialize v).length
  | .null => by simp [needV, serialize, litNull]
  | .bool b => by cases b <;> simp [needV, serialize, litTrue, litFalse]
  | .num n => by
    have := serialize_length_pos (.num n)
    simpa [needV] using this
  | .str s => by simp [needV, serialize]
  | .arr xs => by
    have h := needA_le xs
    simp only [needV, serialize, List.length_cons, List.length_append,
      List.length_singleton]
    omega
  | .obj kvs => by
    have h := needO_le kvs
    simp only [needV, serialize, List.length_cons, List.length_append,
      List.length_singleton]
    omega

theorem needA_le : ∀ xs : JArr, needA xs ≤ (serArr xs).length + 1
  | .nil => by simp [needA, serArr]
  | .cons x .nil => by
    have h1 := needV_le x
    have h2 := serialize_length_pos x
    have h3 : needA JArr.nil = 1 := rfl
    simp only [needA, serArr, h3]
    have := Nat.max_le.mpr ⟨h1, h2⟩
    omega
  | .cons x (.cons y tl) => by
    have h1 := needV_le x
    have h2 := needA_le (.cons y tl)
    have hser : serArr (JArr.cons x (JArr.cons y tl)) =
        serialize x ++ ',' :: serArr (JArr.cons y tl) := rfl
    have hneed : needA (JArr.cons x (JArr.cons y tl)) =
        max (needV x) (needA (JArr.cons y tl)) + 1 := rfl
    rw [hneed, hser]
    have hm : max (needV x) (needA (JArr.cons y tl)) ≤
        (serialize x).length + (serArr (JArr.cons y tl)).length + 1 :=
      Nat.max_le.mpr ⟨by omega, by omega⟩
    simp only [List.length_append, List.length_cons]
    omega

theorem needO_le : ∀ kvs : JObj, needO kvs ≤ (serObj kvs).length + 1
  | .nil => by simp [needO, serObj]
  | .cons k v .nil => by
    have h1 := needV_le v
    have h2 := serialize_length_pos v
    have h3 : needO JObj.nil = 1 := rfl
    simp only [needO, serObj, h3, List.length_cons, List.length_append]
    have := Nat.max_le.mpr ⟨h1, h2⟩
    omega
  | .cons k v (.cons k2 v2 tl) => by
    have h1 := needV_le v
    have h2 := needO_le (.cons k2 v2 tl)
    have hser : serObj (JObj.cons k v (JObj.cons k2 v2 tl)) =
        ('"' :: escList k ++ '"' :: ':' :: serialize v) ++
          ',' :: serObj (JObj.cons k2 v2 tl) := rfl
    have hneed : needO (JObj.cons k v (JObj.cons k2 v2 tl)) =
        max (needV v) (needO (JObj.cons k2 v2 tl)) + 1 := rfl
    rw [hneed, hser]
    have hm : max (needV v) (needO (JObj.cons k2 v2 tl)) ≤
        (escList k).length + (serialize v).length +
          (serObj (JObj.cons k2 v2 tl)).length + 3 :=
      Nat.max_le.mpr ⟨by omega, by omega⟩
    simp only [List.length_append, List.length_cons]
    omega

end

theorem needA_pos (xs : JArr) : 1 ≤ needA xs := by
  cases xs <;> simp [needA]

theorem needO_pos (kvs : JObj) : 1 ≤ needO kvs := by
  cases kvs <;> simp [needO]

/-! ## Dispatch lemmas for `parseValue` -/

theorem parseValue_null (f : Nat) (rest : List Char) :
    parseValue (f + 1) ('n' :: 'u' :: 'l' :: 'l' :: rest) = some (.null, rest) := by
  simp [parseValue, skipWs, List.dropWhile_cons, isWsChar]

theorem parseValue_true (f : Nat) (rest : List Char) :
    parseValue (f + 1) ('t' :: 'r' :: 'u' :: 'e' :: rest) =
      some (.bool true, rest) := by
  simp [parseValue, skipWs, List.dropWhile_cons, isWsChar]

theorem parseValue_false (f : Nat) (rest : List Char) :
    parseValue (f + 1) ('f' :: 'a' :: 'l' :: 's' :: 'e' :: rest) =
      some (.bool false, rest) := by
  simp [parseValue, skipWs, List.dropWhile_cons, isWsChar]

theorem parseValue_quote (f : Nat) (rest : List Char) :
    parseValue (f + 1) ('"' :: rest) =
      (parseStringBody rest).map fun p => (Json.str p.1, p.2) := by
  simp [parseValue, skipWs, List.dropWhile_cons, isWsChar]

theorem parseValue_arr (f : Nat) (rest : List Char) :
    parseValue (f + 1) ('[' :: rest) =
      (match skipWs rest with
       | [] => none
       | c2 :: r2 =>
         if c2 = ']' then some (Json.arr .nil, r2)
         else (parseElems f (c2 :: r2)).map fun p => (Json.arr p.1, p.2)) := by
  simp [parseValue, skipWs, List.dropWhile_cons, isWsChar]

theorem parseValue_obj (f : Nat) (rest : List Char) :
    parseValue (f + 1) (lbrace :: rest) =
      (match skipWs rest with
       | [] => none
       | c2 :: r2 =>
         if c2 = rbrace then some (Json.obj .nil, r2)
         else (parseMembers f (c2 :: r2)).map fun p => (Json.obj p.1, p.2)) := by
  have l1 : lbrace ≠ 'n' := by decide
  have l2 : lbrace ≠ 't' := by decide
  have l3 : lbrace ≠ 'f' := by decide
  have l4 : lbrace ≠ '"' := by decide
  have l5 : lbrace ≠ '[' := by decide
  have lws : isWsChar lbrace = false := by decide
  simp [parseValue, skipWs, List.dropWhile_cons, lws, l1, l2, l3, l4, l5]

theorem parseValue_number (f : Nat) (c : Char) (rest : List Char)
    (hws : isWsChar c = false) (hn : c ≠ 'n') (ht : c ≠ 't') (hf2 : c ≠ 'f')
    (hq : c ≠ '"') (hb : c ≠ '[') (hlb : c ≠ lbrace)
    (hnum : c = '-' ∨ isDigitC c = true) :
    parseValue (f + 1) (c :: rest) = parseNumber (c :: rest) := by
  rcases hnum with rfl | hd
  · simp [parseValue, skipWs, List.dropWhile_cons, isWsChar, hlb]
  · simp [parseValue, skipWs, List.dropWhile_cons, hws, hn, ht, hf2, hq, hb,
      hlb, hd]

theorem someBind {α β : Type} (a : α) (f : α → Option β) :
    (some a).bind f = f a := rfl

theorem parseElems_succ (f : Nat) (l : List Char) :
    parseElems (f + 1) l =
      (parseValue f l).bind fun p =>
        match skipWs p.2 with
        | [] => none
        | c :: r =>
          if c = ',' then (parseElems f r).map fun q => (JArr.cons p.1 q.1, q.2)
          else if c = ']' then some (JArr.cons p.1 .nil, r)
          else none := rfl

theorem parseMembers_succ (f : Nat) (l : List Char) :
    parseMembers (f + 1) l =
      (match skipWs l with
       | [] => none
       | c :: r =>
         if c = '"' then
           (parseStringBody r).bind fun pk =>
             match skipWs pk.2 with
             | [] => none
             | c2 :: r2 =>
               if c2 = ':' then
                 (parseValue f r2).bind fun pv =>
                   match skipWs pv.2 with
                   | [] => none
                   | c3 :: r3 =>
                     if c3 = ',' then
                       (parseMembers f r3).map fun q =>
                         (JObj.cons pk.1 pv.1 q.1, q.2)
                     else if c3 = rbrace then some (JObj.cons pk.1 pv.1 .nil, r3)
                     else none
               else none
         else none) := rfl

theorem serArr_cons_eq (x : Json) (tl : JArr) :
    ∃ r2, serArr (JArr.cons x tl) = serialize x ++ r2 := by
  cases tl with
  | nil => exact ⟨[], by simp [serArr]⟩
  | cons y t2 => exact ⟨',' :: serArr (JArr.cons y t2), rfl⟩

theorem serObj_cons_eq (k : List Char) (v : Json) (tl : JObj) :
    ∃ r2, serObj (JObj.cons k v tl) = '"' :: r2 := by
  cases tl with
  | nil => exact ⟨escList k ++ '"' :: ':' :: serialize v, rfl⟩
  | cons k2 v2 t2 =>
    exact ⟨(escList k ++ '"' :: ':' :: serialize v) ++
      ',' :: serObj (JObj.cons k2 v2 t2), by simp [serObj, List.cons_append]⟩

/-! ## The round-trip theorem: `parseValue` inverts `serialize` -/

mutual
theorem parse_ser :
    ∀ (v : Json) (f : Nat) (rest : List Char), needV v ≤ f → NumDelim rest →
      parseValue f (serialize v ++ rest) = some (v, rest)
  | .null, f, rest, hf, _ => by
    obtain ⟨g, rfl⟩ : ∃ g, f = g + 1 := ⟨f - 1, by have := needV_pos Json.null; omega⟩
    show parseValue (g + 1) ('n' :: 'u' :: 'l' :: 'l' :: rest) = _
    exact parseValue_null g rest
  | .bool true, f, rest, hf, _ => by
    obtain ⟨g, rfl⟩ : ∃ g, f = g + 1 :=
      ⟨f - 1, by have := needV_pos (Json.bool true); omega⟩
    show parseValue (g + 1) ('t' :: 'r' :: 'u' :: 'e' :: rest) = _
    exact parseValue_true g rest
  | .bool false, f, rest, hf, _ => by
    obtain ⟨g, rfl⟩ : ∃ g, f = g + 1 :=
      ⟨f - 1, by have := needV_pos (Json.bool false); omega⟩
    show parseValue (g + 1) ('f' :: 'a' :: 'l' :: 's' :: 'e' :: rest) = _
    exact parseValue_false g rest
  | .num n, f, rest, hf, hrest => by
    obtain ⟨g, rfl⟩ : ∃ g, f = g + 1 :=
      ⟨f - 1, by have := needV_pos (Json.num n); omega⟩
    show parseValue (g + 1) (serInt n ++ rest) = some (Json.num n, rest)
    by_cases hneg : n < 0
    · have hser : serInt n = '-' :: natToChars (-n).toNat := by
        simp [serInt, hneg]
      rw [hser, List.cons_append,
        parseValue_number g '-' _ (by decide) (by decide) (by decide)
          (by decide) (by decide) (by decide) (by decide) (Or.inl rfl),
        ← List.cons_append, ← hser]
      exact parseNumber_serInt n rest hrest
    · obtain ⟨k, t, hk, hht⟩ := digitsAux_head (n.toNat + 1) n.toNat (by omega)
      have hser : serInt n = digitChar k :: t := by
        rw [show serInt n = natToChars n.toNat from by simp [serInt, hneg]]
        exact hht
      have hne := digitChar_ne k hk
      rw [hser, List.cons_append,
        parseValue_number g (digitChar k) _ (isWsChar_digitChar k hk) hne.1
          hne.2.1 hne.2.2.1 hne.2.2.2.1 hne.2.2.2.2.1 hne.2.2.2.2.2.1
          (Or.inr (isDigitC_digitChar k hk)),
        ← List.cons_append, ← hser]
      exact parseNumber_serInt n rest hrest
  | .str s, f, rest, hf, _ => by
    obtain ⟨g, rfl⟩ : ∃ g, f = g + 1 :=
      ⟨f - 1, by have := needV_pos (Json.str s); omega⟩
    have hser : serialize (Json.str s) ++ rest =
        '"' :: (escList s ++ '"' :: rest) := by
      show ('"' :: escList s ++ ['"']) ++ rest = _
      simp [List.append_assoc]
    rw [hser, parseValue_quote, parseStringBody_escList s rest]
    rfl
  | .arr .nil, f, rest, hf, _ => by
    obtain ⟨g, rfl⟩ : ∃ g, f = g + 1 :=
      ⟨f - 1, by have := needV_pos (Json.arr JArr.nil); omega⟩
    have hser : serialize (Json.arr JArr.nil) ++ rest = '[' :: (']' :: rest) := by
      show ('[' :: serArr JArr.nil ++ [']']) ++ rest = _
      simp [serArr]
    rw [hser, parseValue_arr, skipWs_cons_of ']' rest (by decide)]
    simp
  | .arr (.cons x tl), f, rest, hf, _ => by
    obtain ⟨g, rfl⟩ : ∃ g, f = g + 1 :=
      ⟨f - 1, by have := needV_pos (Json.arr (JArr.cons x tl)); omega⟩
    have hf2 : needA (JArr.cons x tl) ≤ g := by
      have h : needV (Json.arr (JArr.cons x tl)) = needA (JArr.cons x tl) + 1 := rfl
      omega
    obtain ⟨r2, hr2⟩ := serArr_cons_eq x tl
    obtain ⟨c, t, hh, hw, hne, -, -, -⟩ := serialize_head x
    have hshape : serArr (JArr.cons x tl) ++ ']' :: rest =
        c :: (t ++ (r2 ++ ']' :: rest)) := by
      rw [hr2, hh]
      simp [List.append_assoc]
    have hser : serialize (Json.arr (JArr.cons x tl)) ++ rest =
        '[' :: (serArr (JArr.cons x tl) ++ ']' :: rest) := by
      show ('[' :: serArr (JArr.cons x tl) ++ [']']) ++ rest = _
      simp [List.append_assoc]
    rw [hser, parseValue_arr, hshape, skipWs_cons_of c _ hw]
    simp only [hne, if_false, reduceCtorEq]
    rw [← hshape,
      parse_serArr (JArr.cons x tl) g rest (fun h => JArr.noConfusion h) hf2]
    rfl
  | .obj .nil, f, rest, hf, _ => by
    obtain ⟨g, rfl⟩ : ∃ g, f = g + 1 :=
      ⟨f - 1, by have := needV_pos (Json.obj JObj.nil); omega⟩
    have hser : serialize (Json.obj JObj.nil) ++ rest =
        lbrace :: (rbrace :: rest) := by
      show (lbrace :: serObj JObj.nil ++ [rbrace]) ++ rest = _
      simp [serObj]
    rw [hser, parseValue_obj, skipWs_cons_of rbrace rest (by decide)]
    simp
  | .obj (.cons k v tl), f, rest, hf, _ => by
    obtain ⟨g, rfl⟩ : ∃ g, f = g + 1 :=
      ⟨f - 1, by have := needV_pos (Json.obj (JObj.cons k v tl)); omega⟩
    have hf2 : needO (JObj.cons k v tl) ≤ g := by
      have h : needV (Json.obj (JObj.cons k v tl)) = needO (JObj.cons k v tl) + 1 := rfl
      omega
    obtain ⟨r2, hr2⟩ := serObj_cons_eq k v tl
    have hshape : serObj (JObj.cons k v tl) ++ rbrace :: rest =
        '"' :: (r2 ++ rbrace :: rest) := by
      rw [hr2]
      simp
    have hser : serialize (Json.obj (JObj.cons k v tl)) ++ rest =
        lbrace :: (serObj (JObj.cons k v tl) ++ rbrace :: rest) := by
      show (lbrace :: serObj (JObj.cons k v tl) ++ [rbrace]) ++ rest = _
      simp [List.append_assoc]
    have hq : ('"' : Char) ≠ rbrace := by decide
    rw [hser, parseValue_obj, hshape, skipWs_cons_of '"' _ (by decide)]
    simp only [hq, if_false, reduceCtorEq]
    rw [← hshape,
      parse_serObj (JObj.cons k v tl) g rest (fun h => JObj.noConfusion h) hf2]
    rfl

theorem parse_serArr :
    ∀ (xs : JArr) (f : Nat) (rest : List Char), xs ≠ .nil → needA xs ≤ f →
      parseElems f (serArr xs ++ ']' :: rest) = some (xs, rest)
  | .nil, _, _, h, _ => absurd rfl h
  | .cons x .nil, f, rest, _, hf => by
    obtain ⟨g, rfl⟩ : ∃ g, f = g + 1 :=
      ⟨f - 1, by have := needA_pos (JArr.cons x JArr.nil); omega⟩
    have hneed : needA (JArr.cons x JArr.nil) =
        max (needV x) (needA JArr.nil) + 1 := rfl
    have hx : needV x ≤ g := by
      have := Nat.le_max_left (needV x) (needA JArr.nil)
      omega
    have hx2 : parseValue g (serialize x ++ ']' :: rest) = some (x, ']' :: rest) :=
      parse_ser x g (']' :: rest) hx (Or.inr ⟨']', rest, rfl, by decide⟩)
    have hsk : skipWs (']' :: rest) = ']' :: rest :=
      skipWs_cons_of ']' rest (by decide)
    rw [parseElems_succ,
      show serArr (JArr.cons x JArr.nil) = serialize x from rfl, hx2, someBind]
    simp [hsk]
  | .cons x (.cons y t2), f, rest, _, hf => by
    obtain ⟨g, rfl⟩ : ∃ g, f = g + 1 :=
      ⟨f - 1, by have := needA_pos (JArr.cons x (JArr.cons y t2)); omega⟩
    have hneed : needA (JArr.cons x (JArr.cons y t2)) =
        max (needV x) (needA (JArr.cons y t2)) + 1 := rfl
    have hx : needV x ≤ g := by
      have := Nat.le_max_left (needV x) (needA (JArr.cons y t2))
      omega
    have htl2 : needA (JArr.cons y t2) ≤ g := by
      have := Nat.le_max_right (needV x) (needA (JArr.cons y t2))
      omega
    have hserr : serArr (JArr.cons x (JArr.cons y t2)) ++ ']' :: rest =
        serialize x ++ (',' :: (serArr (JArr.cons y t2) ++ ']' :: rest)) := by
      show (serialize x ++ ',' :: serArr (JArr.cons y t2)) ++ ']' :: rest = _
      simp [List.append_assoc]
    have hx2 : parseValue g
        (serialize x ++ (',' :: (serArr (JArr.cons y t2) ++ ']' :: rest))) =
        some (x, ',' :: (serArr (JArr.cons y t2) ++ ']' :: rest)) :=
      parse_ser x g _ hx (Or.inr ⟨',', _, rfl, by decide⟩)
    have hsk : skipWs (',' :: (serArr (JArr.cons y t2) ++ ']' :: rest)) =
        ',' :: (serArr (JArr.cons y t2) ++ ']' :: rest) :=
      skipWs_cons_of ',' _ (by decide)
    have hrec : parseElems g (serArr (JArr.cons y t2) ++ ']' :: rest) =
        some (JArr.cons y t2, rest) :=
      parse_serArr (JArr.cons y t2) g rest (fun h => JArr.noConfusion h) htl2
    rw [parseElems_succ, hserr, hx2, someBind]
    simp [hsk, hrec]

theorem parse_serObj :
    ∀ (kvs : JObj) (f : Nat) (rest : List Char), kvs ≠ .nil → needO kvs ≤ f →
      parseMembers f (serObj kvs ++ rbrace :: rest) = some (kvs, rest)
  | .nil, _, _, h, _ => absurd rfl h
  | .cons k v .nil, f, rest, _, hf => by
    obtain ⟨g, rfl⟩ : ∃ g, f = g + 1 :=
      ⟨f - 1, by have := needO_pos (JObj.cons k v JObj.nil); omega⟩
    have hneed : needO (JObj.cons k v JObj.nil) =
        max (needV v) (needO JObj.nil) + 1 := rfl
    have hv : needV v ≤ g := by
      have := Nat.le_max_left (needV v) (needO JObj.nil)
      omega
    have hfront : serObj (JObj.cons k v JObj.nil) ++ rbrace :: rest =
        '"' :: (escList k ++ '"' :: (':' :: (serialize v ++ rbrace :: rest))) := by
      show ('"' :: escList k ++ '"' :: ':' :: serialize v) ++ rbrace :: rest = _
      simp [List.append_assoc]
    have hv2 : parseValue g (serialize v ++ rbrace :: rest) =
        some (v, rbrace :: rest) :=
      parse_ser v g (rbrace :: rest) hv (Or.inr ⟨rbrace, rest, rfl, by decide⟩)
    have hsk1 : ∀ l : List Char, skipWs (':' :: l) = ':' :: l :=
      fun l => skipWs_cons_of ':' l (by decide)
    have hsk2 : ∀ l : List Char, skipWs (rbrace :: l) = rbrace :: l :=
      fun l => skipWs_cons_of rbrace l (by decide)
    have hne1 : rbrace ≠ ',' := by decide
    rw [parseMembers_succ, hfront, skipWs_cons_of '"' _ (by decide)]
    simp [parseStringBody_escList, hsk1, hsk2, hne1, hv2]
  | .cons k v (.cons k2 v2 t2), f, rest, _, hf => by
    obtain ⟨g, rfl⟩ : ∃ g, f = g + 1 :=
      ⟨f - 1, by have := needO_pos (JObj.cons k v (JObj.cons k2 v2 t2)); omega⟩
    have hneed : needO (JObj.cons k v (JObj.cons k2 v2 t2)) =
        max (needV v) (needO (JObj.cons k2 v2 t2)) + 1 := rfl
    have hv : needV v ≤ g := by
      have := Nat.le_max_left (needV v) (needO (JObj.cons k2 v2 t2))
      omega
    have htl2 : needO (JObj.cons k2 v2 t2) ≤ g := by
      have := Nat.le_max_right (needV v) (needO (JObj.cons k2 v2 t2))
      omega
    have hfront : serObj (JObj.cons k v (JObj.cons k2 v2 t2)) ++ rbrace :: rest =
        '"' :: (escList k ++ '"' :: (':' :: (serialize v ++
          ',' :: (serObj (JObj.cons k2 v2 t2) ++ rbrace :: rest)))) := by
      show (('"' :: escList k ++ '"' :: ':' :: serialize v) ++
          ',' :: serObj (JObj.cons k2 v2 t2)) ++ rbrace :: rest = _
      simp [List.append_assoc]
    have hv2 : parseValue g (serialize v ++
        ',' :: (serObj (JObj.cons k2 v2 t2) ++ rbrace :: rest)) =
        some (v, ',' :: (serObj (JObj.cons k2 v2 t2) ++ rbrace :: rest)) :=
      parse_ser v g _ hv (Or.inr ⟨',', _, rfl, by decide⟩)
    have hrec : parseMembers g (serObj (JObj.cons k2 v2 t2) ++ rbrace :: rest) =
        some (JObj.cons k2 v2 t2, rest) :=
      parse_serObj (JObj.cons k2 v2 t2) g rest (fun h => JObj.noConfusion h) htl2
    have hsk1 : ∀ l : List Char, skipWs (':' :: l) = ':' :: l :=
      fun l => skipWs_cons_of ':' l (by decide)
    have hsk3 : ∀ l : List Char, skipWs (',' :: l) = ',' :: l :=
      fun l => skipWs_cons_of ',' l (by decide)
    rw [parseMembers_succ, hfront, skipWs_cons_of '"' _ (by decide)]
    simp [parseStringBody_escList, hsk1, hsk3, hv2, hrec]
end

theorem jsonParseL_serialize (v : Json) : jsonParseL (serialize v) = some v := by
  unfold jsonParseL
  have hneed : needV v ≤ (serialize v).length + 1 := by
    have := needV_le v
    omega
  have h := parse_ser v ((serialize v).length + 1) [] hneed (Or.inl rfl)
  rw [List.append_nil] at h
  rw [h]
  simp [skipWs]

theorem jsonParse_stringify (v : Json) : jsonParse (jsonStringify v) = some v :=
  jsonParseL_serialize v

/-! ## Claim C8: JSON round-trip through `process` -/

/-- C8.  For every structured payload `P` in the JSON model, parsing the
serialization of `P` returns `P`, and processing a 200 response whose body
is that serialization in JSON mode resolves to a value deep-equal to `P`
(the status passes the `20[0-9]` check, trimming leaves the body intact,
and `parseJSON` applies the inverse of serialization). -/
theorem c8 :
    (∀ v : Json, jsonParse (jsonStringify v) = some v) ∧
    (∀ (v : Json) (st : St),
      applyHandler .json 200 (jsonStringify v) st = (.success (some v), st)) := by
  constructor
  · exact fun v => jsonParseL_serialize v
  · intro v st
    obtain ⟨c, t, hh, -⟩ := serialize_head v
    have hempty : (serialize v).isEmpty = false := by
      rw [hh]
      rfl
    show (process 200 (jsonStringify v)
      (parseJSON (trimChars (jsonStringify v).data)), st) = _
    rw [show trimChars (jsonStringify v).data = serialize v from trim_serialize v]
    unfold parseJSON
    rw [if_neg (by simp [hempty]), jsonParseL_serialize v]
    unfold process
    rw [if_pos (by decide : statusSuccess 200 = true)]

end Mapi
